import Mathlib

set_option maxHeartbeats 1000000
set_option maxRecDepth 8000

/-!
Shallow embedding of the conversation-recovery engine of `viewer.py`
(Claude Sessions Viewer).  Python `json.loads` values are modelled by the
inductive type `Json`; the Python standard-library boundaries that the
engine calls are passed in as explicit function parameters:

* `parse : String → Option Json` models `json.loads` (`none` = the raised
  `JSONDecodeError` that the engine catches);
* `fmt : ℚ → Option String` models `datetime.fromtimestamp(·).isoformat()`
  (`none` = the raised `OverflowError`/`OSError` that the engine catches);
  the numeric argument is the epoch-seconds value after the engine's own
  millisecond heuristic, with Python float division modelled exactly on ℚ;
* `d8, d16 : List Nat → String` model `bytes.decode("utf-8", errors="ignore")`
  and `bytes.decode("utf-16le", errors="ignore")` on a byte buffer.

Everything else (the scanners, harvesters, classifiers, summarizers and
event loaders) is translated directly from the source.  Python dicts are
modelled as association lists in insertion order with unique keys; `str`
slicing/`len` act on code points, matched here by `List Char` operations.
-/

namespace ClaudeViewer

mutual
/-- JSON values as returned by `json.loads`: `null`, booleans, numbers
(integers suffice for the verified claims), strings, arrays and objects
(dicts in insertion order with unique keys).  Arrays and objects carry
their own list types so that every traversal is mutual structural
recursion (kernel-reducible). -/
inductive Json where
  | null
  | bool (b : Bool)
  | num (n : Int)
  | str (s : String)
  | arr (elems : JsonList)
  | obj (fields : JsonFields)

/-- The elements of a JSON array. -/
inductive JsonList where
  | nil
  | cons (hd : Json) (tl : JsonList)

/-- The key/value fields of a JSON object, in insertion order. -/
inductive JsonFields where
  | nil
  | cons (k : String) (v : Json) (tl : JsonFields)
end

deriving instance DecidableEq for Json

/-- Array elements from a plain list (fixture builder). -/
def JsonList.ofList : List Json → JsonList
  | [] => JsonList.nil
  | j :: rest => JsonList.cons j (JsonList.ofList rest)

/-- Array elements to a plain list. -/
def JsonList.toList : JsonList → List Json
  | JsonList.nil => []
  | JsonList.cons j rest => j :: JsonList.toList rest

/-- Object fields from a plain association list (fixture builder). -/
def JsonFields.ofList : List (String × Json) → JsonFields
  | [] => JsonFields.nil
  | (k, v) :: rest => JsonFields.cons k v (JsonFields.ofList rest)

/-- A JSON array literal. -/
def jarr (l : List Json) : Json := Json.arr (JsonList.ofList l)

/-- A JSON object literal. -/
def jobj (l : List (String × Json)) : Json := Json.obj (JsonFields.ofList l)

/-- Python `s[:n]` on a `str`: first `n` code points. -/
def pyTrunc (s : String) (n : Nat) : String := ⟨s.data.take n⟩

/-- Python `s.replace("\n", " ")`. -/
def replaceNl (s : String) : String :=
  ⟨s.data.map fun c => if c = '\n' then ' ' else c⟩

/-- Python `str.isspace` for the ASCII whitespace characters (the unicode
whitespace code points do not occur in the verified inputs). -/
def pyIsSpace (c : Char) : Bool :=
  c = ' ' || c = '\t' || c = '\n' || c = '\r' || c = '\x0b' || c = '\x0c'

/-- Python `s.strip()`. -/
def pyStrip (s : String) : String :=
  ⟨((s.data.dropWhile pyIsSpace).reverse.dropWhile pyIsSpace).reverse⟩

/-- Python `s.lower()` (ASCII case mapping). -/
def pyLower (s : String) : String := ⟨s.data.map Char.toLower⟩

/-- Substring containment on character lists. -/
def charsContain (hay needle : List Char) : Bool :=
  match hay with
  | [] => needle.isEmpty
  | _ :: rest => needle.isPrefixOf hay || charsContain rest needle

/-- Python `needle in hay` on strings (substring containment). -/
def strContains (hay needle : String) : Bool :=
  charsContain hay.data needle.data

/-- The content-priority keys of `_extract_text_recursive` (`text_keys`),
visited first and in this order. -/
def textKeys : List String :=
  ["text", "content", "message", "prompt", "output", "input", "value", "body"]

/-- The metadata keys of `_extract_text_recursive` (`skip_keys`), never
contributing text. -/
def skipKeys : List String :=
  ["type", "id", "uuid", "role", "sender", "author", "version",
   "updatedAt", "createdAt", "timestamp", "time", "ts"]

/-- Membership of a key in a modelled dict (Python `k in obj`). -/
def Json.hasKey : JsonFields → String → Bool
  | JsonFields.nil, _ => false
  | JsonFields.cons k' _ rest, k => k' = k || Json.hasKey rest k

/-- Python `obj.get(k)` on a dict known to be a dict: `none` models the
returned `None` when the key is absent. -/
def Json.getOpt : JsonFields → String → Option Json
  | JsonFields.nil, _ => none
  | JsonFields.cons k' v rest, k => if k' = k then some v else Json.getOpt rest k

/-- Python `obj.get(k, default)` on a dict. -/
def Json.getD (fields : JsonFields) (k : String) (d : Json) : Json :=
  (Json.getOpt fields k).getD d

mutual
/-- `_extract_text_recursive(obj)` (viewer.py lines 173-205): depth-first
collection of non-empty stripped strings; for dicts the `text_keys` are
visited first in their fixed order, the `skip_keys` are skipped, and the
remaining keys are visited in insertion order. -/
def extractTextRecursive : Json → List String
  | Json.str s =>
      let t := pyStrip s
      if t = "" then [] else [t]
  | Json.arr elems => extractTextList elems
  | Json.obj fields =>
      (textKeys.map fun k => extractTextAtKey k fields).flatten ++
        extractTextRest fields
  | _ => []

/-- The array case of `_extract_text_recursive`: elements in order. -/
def extractTextList : JsonList → List String
  | JsonList.nil => []
  | JsonList.cons j rest => extractTextRecursive j ++ extractTextList rest

/-- The `if k in obj: texts.extend(...(obj.get(k)))` step of
`_extract_text_recursive` for one content-priority key. -/
def extractTextAtKey (k : String) : JsonFields → List String
  | JsonFields.nil => []
  | JsonFields.cons k' v rest =>
      if k' = k then extractTextRecursive v else extractTextAtKey k rest

/-- The second pass of `_extract_text_recursive` over the remaining keys
in insertion order, skipping `text_keys` and `skip_keys`. -/
def extractTextRest : JsonFields → List String
  | JsonFields.nil => []
  | JsonFields.cons k v rest =>
      (if k ∈ textKeys ∨ k ∈ skipKeys then [] else extractTextRecursive v) ++
        extractTextRest rest
end

/-- Lower-case hex digit. -/
def hexDigit (n : Nat) : Char :=
  if n < 10 then Char.ofNat (48 + n) else Char.ofNat (87 + n)

/-- Four lower-case hex digits, as in Python's `\u00XX` escapes. -/
def hex4 (n : Nat) : List Char :=
  [hexDigit (n / 4096 % 16), hexDigit (n / 256 % 16), hexDigit (n / 16 % 16),
   hexDigit (n % 16)]

/-- Escaping of one character by `json.dumps(..., ensure_ascii=False)`. -/
def jsonEscapeChar (c : Char) : List Char :=
  if c = '"' then ['\\', '"']
  else if c = '\\' then ['\\', '\\']
  else if c = '\n' then ['\\', 'n']
  else if c = '\r' then ['\\', 'r']
  else if c = '\t' then ['\\', 't']
  else if c = Char.ofNat 8 then ['\\', 'b']
  else if c = Char.ofNat 12 then ['\\', 'f']
  else if c.toNat < 32 then '\\' :: 'u' :: hex4 c.toNat
  else [c]

/-- A JSON string literal as serialized by `json.dumps`. -/
def jsonQuote (s : String) : String :=
  ⟨'"' :: (s.data.map jsonEscapeChar).flatten ++ ['"']⟩

mutual
/-- `json.dumps(v, ensure_ascii=False)` with the default separators
`", "` and `": "`, for values that came out of `json.loads`. -/
def Json.dumps : Json → String
  | Json.null => "null"
  | Json.bool true => "true"
  | Json.bool false => "false"
  | Json.num n => toString n
  | Json.str s => jsonQuote s
  | Json.arr elems => "[" ++ Json.dumpsList elems ++ "]"
  | Json.obj fields => "\x7b" ++ Json.dumpsFields fields ++ "\x7d"

/-- Comma-separated serialization of array elements. -/
def Json.dumpsList : JsonList → String
  | JsonList.nil => ""
  | JsonList.cons j JsonList.nil => Json.dumps j
  | JsonList.cons j rest => Json.dumps j ++ ", " ++ Json.dumpsList rest

/-- Comma-separated serialization of object fields. -/
def Json.dumpsFields : JsonFields → String
  | JsonFields.nil => ""
  | JsonFields.cons k v JsonFields.nil => jsonQuote k ++ ": " ++ Json.dumps v
  | JsonFields.cons k v rest =>
      jsonQuote k ++ ": " ++ Json.dumps v ++ ", " ++ Json.dumpsFields rest
end

/-- Escaping of one character inside a Python `repr` string literal with
quote character `q` (common cases; non-printable `\xNN` escapes other than
the named ones do not occur in the verified inputs). -/
def pyReprEscapeChar (q c : Char) : List Char :=
  if c = '\\' then ['\\', '\\']
  else if c = q then ['\\', q]
  else if c = '\n' then ['\\', 'n']
  else if c = '\r' then ['\\', 'r']
  else if c = '\t' then ['\\', 't']
  else [c]

/-- Python `repr` of a `str`: single-quoted, except double-quoted when the
string contains `'` but not `"`. -/
def pyReprStr (s : String) : String :=
  let q : Char := if s.data.contains '\'' && !(s.data.contains '"') then '"' else '\''
  ⟨q :: (s.data.map (pyReprEscapeChar q)).flatten ++ [q]⟩

mutual
/-- Python `repr` of a parsed-JSON value. -/
def Json.pyRepr : Json → String
  | Json.null => "None"
  | Json.bool true => "True"
  | Json.bool false => "False"
  | Json.num n => toString n
  | Json.str s => pyReprStr s
  | Json.arr elems => "[" ++ Json.pyReprList elems ++ "]"
  | Json.obj fields => "\x7b" ++ Json.pyReprFields fields ++ "\x7d"

/-- Comma-separated `repr` of array elements. -/
def Json.pyReprList : JsonList → String
  | JsonList.nil => ""
  | JsonList.cons j JsonList.nil => Json.pyRepr j
  | JsonList.cons j rest => Json.pyRepr j ++ ", " ++ Json.pyReprList rest

/-- Comma-separated `repr` of object fields. -/
def Json.pyReprFields : JsonFields → String
  | JsonFields.nil => ""
  | JsonFields.cons k v JsonFields.nil => pyReprStr k ++ ": " ++ Json.pyRepr v
  | JsonFields.cons k v rest =>
      pyReprStr k ++ ": " ++ Json.pyRepr v ++ ", " ++ Json.pyReprFields rest
end

/-- Python `str(v)` of a parsed-JSON value, as used by f-string
interpolation: strings pass through, everything else is its `repr`. -/
def Json.pyStr : Json → String
  | Json.str s => s
  | v => Json.pyRepr v

/-- Emptiness of array elements. -/
def JsonList.isEmpty : JsonList → Bool
  | JsonList.nil => true
  | JsonList.cons _ _ => false

/-- Emptiness of object fields. -/
def JsonFields.isEmpty : JsonFields → Bool
  | JsonFields.nil => true
  | JsonFields.cons _ _ _ => false

/-- Python truthiness of a parsed-JSON value. -/
def jsonTruthy : Json → Bool
  | Json.null => false
  | Json.bool b => b
  | Json.num n => n != 0
  | Json.str s => s != ""
  | Json.arr elems => !elems.isEmpty
  | Json.obj fields => !fields.isEmpty

/-- The millisecond-epoch heuristic of `_iso_from_ts` (viewer.py lines
38-39 and 50-51): a value strictly greater than 10^12 is divided by 1000.
Python's float division is modelled exactly on ℚ. -/
def epochAdjust (x : ℚ) : ℚ :=
  if x > 1000000000000 then x / 1000 else x

/-- `int(s)` for a string of decimal digits. -/
def digitsVal (s : String) : Nat :=
  s.data.foldl (fun n c => n * 10 + (c.toNat - 48)) 0

/-- `re.fullmatch(r"\d{10,16}", s)` (ASCII digits). -/
def isTsDigits (s : String) : Bool :=
  s.data.all (·.isDigit) && decide (10 ≤ s.length) && decide (s.length ≤ 16)

/-- `_iso_from_ts(ts)` (viewer.py lines 35-56).  `fmt` models
`datetime.fromtimestamp(·).isoformat()`; `none` models the exception that
the source catches into `""`.  Python `bool` is an `int` subclass, so a
boolean timestamp enters the numeric branch as 1 or 0. -/
def isoFromTs (fmt : ℚ → Option String) : Json → String
  | Json.num n => (fmt (epochAdjust (n : ℚ))).getD ""
  | Json.bool b => (fmt (epochAdjust (if b then 1 else 0))).getD ""
  | Json.str ts =>
      let s := pyStrip ts
      if s = "" then ""
      else if isTsDigits s then (fmt (epochAdjust (digitsVal s : ℚ))).getD ""
      else s
  | _ => ""

/-- The key loop of `_extract_ts_from_obj`: first key whose parsed
timestamp is non-empty wins; a present key parsing to `""` falls through
to the next key. -/
def tsKeysLoop (fmt : ℚ → Option String) (fields : JsonFields) :
    List String → String
  | [] => ""
  | k :: rest =>
      if Json.hasKey fields k then
        let parsed := isoFromTs fmt (Json.getD fields k Json.null)
        if parsed ≠ "" then parsed else tsKeysLoop fmt fields rest
      else tsKeysLoop fmt fields rest

/-- `_extract_ts_from_obj(obj)` (viewer.py lines 314-322). -/
def extractTsFromObj (fmt : ℚ → Option String) : Json → String
  | Json.obj fields =>
      tsKeysLoop fmt fields ["timestamp", "time", "created_at", "createdAt", "ts"]
  | _ => ""

/-- The case-insensitive role alias table used for the nested message role
and the top-level `role`/`sender`/`author` fields (viewer.py lines
214-235); input is already lower-cased. -/
def roleFromAlias (low : String) : Option String :=
  if low = "user" ∨ low = "human" then some "user"
  else if low = "assistant" ∨ low = "claude" ∨ low = "ai" then some "assistant"
  else if low = "developer" ∨ low = "dev" then some "developer"
  else if low = "system" then some "system"
  else none

/-- The alias table for the top-level `type` discriminant (viewer.py lines
236-244); input is already lower-cased. -/
def roleFromType (low : String) : Option String :=
  if low = "user" ∨ low = "human_message" ∨ low = "human" then some "user"
  else if low = "assistant" ∨ low = "assistant_message" then some "assistant"
  else if low = "system" ∨ low = "system_message" then some "system"
  else none

/-- The `for key in ("role", "sender", "author")` loop of `_guess_role`: a
string value whose alias is unrecognized falls through to the next key. -/
def firstKeyRole (fields : JsonFields) : List String → Option String
  | [] => none
  | k :: rest =>
      match Json.getOpt fields k with
      | some (Json.str v) =>
          match roleFromAlias (pyLower v) with
          | some r => some r
          | none => firstKeyRole fields rest
      | _ => firstKeyRole fields rest

/-- Rule (1) of `_guess_role`: an alias-recognized role string inside a
nested `message` dict. -/
def guessRoleFromMsg (fields : JsonFields) : Option String :=
  match Json.getOpt fields "message" with
  | some (Json.obj mf) =>
      match Json.getOpt mf "role" with
      | some (Json.str r) => roleFromAlias (pyLower r)
      | _ => none
  | _ => none

/-- Rule (3) of `_guess_role`: the `type` discriminant table, defaulting
to `"system"`. -/
def guessRoleFromType (fields : JsonFields) : String :=
  match Json.getOpt fields "type" with
  | some (Json.str t) => (roleFromType (pyLower t)).getD "system"
  | _ => "system"

/-- `_guess_role(obj)` (viewer.py lines 208-245): nested message role
first, then top-level `role`/`sender`/`author`, then the `type`
discriminant, else `"system"`. -/
def guessRole (j : Json) : String :=
  match j with
  | Json.obj fields =>
      match guessRoleFromMsg fields with
      | some r => r
      | none =>
          match firstKeyRole fields ["role", "sender", "author"] with
          | some r => r
          | none => guessRoleFromType fields
  | _ => "system"

/-- Rendering of one content block in `_extract_claude_message_text`
(viewer.py lines 259-289); returns the chunk(s) the block appends. -/
def msgChunkOfItem (item : Json) : List String :=
  match item with
  | Json.obj f =>
      match Json.getOpt f "type" with
      | some (Json.str "text") =>
          match Json.getOpt f "text" with
          | some (Json.str t) => if pyStrip t ≠ "" then [pyStrip t] else []
          | _ => []
      | some (Json.str "thinking") =>
          match Json.getOpt f "thinking" with
          | some (Json.str t) => if pyStrip t ≠ "" then [pyStrip t] else []
          | _ => []
      | some (Json.str "tool_use") =>
          let name := Json.getD f "name" (Json.str "")
          let arg :=
            match Json.getOpt f "input" with
            | some (Json.obj g) => Json.dumps (Json.obj g)
            | some v => if jsonTruthy v then Json.pyStr v else ""
            | none => ""
          [pyStrip ("[tool_use] " ++ Json.pyStr name ++ " " ++ arg)]
      | some (Json.str "tool_result") =>
          let t := "\n".intercalate
            (extractTextRecursive (Json.getD f "content" Json.null))
          if pyStrip t ≠ "" then ["[tool_result] " ++ pyStrip t] else []
      | _ =>
          let t := "\n".intercalate (extractTextRecursive item)
          if pyStrip t ≠ "" then [pyStrip t] else []
  | Json.str s => if pyStrip s ≠ "" then [pyStrip s] else []
  | _ => []

/-- `_extract_claude_message_text(message_obj)` (viewer.py lines 248-292). -/
def extractClaudeMessageText (m : Json) : String :=
  match m with
  | Json.str s => pyStrip s
  | Json.obj fields =>
      let content := Json.getOpt fields "content"
      match content with
      | some (Json.str c) => pyStrip c
      | _ =>
          let chunks :=
            match content with
            | some (Json.arr items) => ((JsonList.toList items).map msgChunkOfItem).flatten
            | _ => []
          if chunks ≠ [] then pyStrip ("\n".intercalate chunks)
          else pyStrip ("\n".intercalate (extractTextRecursive m))
  | _ => ""

/-- `_extract_claude_progress_text(obj)` (viewer.py lines 295-311); the
call site guarantees `obj` is a dict, so the embedding takes its fields. -/
def extractClaudeProgressText (fields : JsonFields) : String :=
  match Json.getOpt fields "data" with
  | some (Json.obj d) =>
      match Json.getOpt d "type" with
      | some (Json.str "mcp_progress") =>
          pyStrip ("mcp_progress status=" ++ Json.pyStr (Json.getD d "status" (Json.str ""))
            ++ " server=" ++ Json.pyStr (Json.getD d "serverName" (Json.str ""))
            ++ " tool=" ++ Json.pyStr (Json.getD d "toolName" (Json.str ""))
            ++ " elapsed=" ++ Json.pyStr (Json.getD d "elapsedTimeMs" (Json.str "")))
      | some (Json.str "hook_progress") =>
          pyStrip ("hook_progress event=" ++ Json.pyStr (Json.getD d "hookEvent" (Json.str ""))
            ++ " name=" ++ Json.pyStr (Json.getD d "hookName" (Json.str ""))
            ++ " command=" ++ Json.pyStr (Json.getD d "command" (Json.str "")))
      | _ => Json.dumps (Json.obj d)
  | _ => ""

/-- The scanner state of `_extract_json_candidates_balanced`: brace
nesting depth, the "inside quoted string" flag and the backslash-escape
flag. -/
structure ScanSt where
  depth : Int
  inStr : Bool
  esc : Bool
deriving DecidableEq, Repr

/-- One character step of the inner scan of
`_extract_json_candidates_balanced` (viewer.py lines 404-420), exactly as
the source updates `depth`/`in_str`/`esc` when it does not break. -/
def scanStep (st : ScanSt) (c : Char) : ScanSt :=
  if st.inStr then
    if st.esc then { st with esc := false }
    else if c = '\\' then { st with esc := true }
    else if c = '"' then { st with inStr := false }
    else st
  else
    if c = '"' then { st with inStr := true }
    else if c = '\x7b' then { st with depth := st.depth + 1 }
    else if c = '\x7d' then { st with depth := st.depth - 1 }
    else st

/-- The inner `while j < n` scan from position `j`: returns the absolute
index of the closing brace at which the source breaks (genuine depth
returned to zero outside a string), or `none` when the scan runs off the
end of the input. -/
def scanFrom : List Char → Nat → ScanSt → Option Nat
  | [], _, _ => none
  | c :: rest, j, st =>
      if st.inStr = false ∧ c = '\x7d' ∧ st.depth - 1 = 0 then some j
      else scanFrom rest (j + 1) (scanStep st c)

/-- The outer loop of `_extract_json_candidates_balanced` (viewer.py lines
391-427): on a `\x7b`, run the inner scan; emit the balanced chunk when its
length is within [24, 200000]; resume at `j + 1` (the source's
`i = j + 1 if j > i else i + 1`, with `j = n` when the inner scan ran off
the end).  `fuel` is a structural bound on the number of loop iterations:
each iteration advances `i` by at least one, so `chars.length + 1 - i`
iterations always suffice (the source's forward-progress/O(n) argument);
with that much fuel the `fuel = 0` clause is unreachable. -/
def extractCandidatesLoop (chars : List Char) (limit : Nat) :
    Nat → Nat → List String → List String
  | 0, _, out => out
  | fuel + 1, i, out =>
    if i < chars.length ∧ out.length < limit then
      if chars.getD i ' ' ≠ '\x7b' then
        extractCandidatesLoop chars limit fuel (i + 1) out
      else
        match scanFrom (chars.drop i) i ⟨0, false, false⟩ with
        | none => out
        | some j =>
            let chunk : String := ⟨(chars.drop i).take (j + 1 - i)⟩
            let out' :=
              if 24 ≤ chunk.length ∧ chunk.length ≤ 200000 then out ++ [chunk]
              else out
            extractCandidatesLoop chars limit fuel (if j > i then j + 1 else i + 1) out'
    else out

/-- `_extract_json_candidates_balanced(text, limit)` (viewer.py lines
391-427). -/
def extractJsonCandidatesBalanced (text : String) (limit : Nat) : List String :=
  extractCandidatesLoop text.data limit (text.data.length + 1) 0 []

/-- The candidate loop of `_extract_json_objects_from_text` (viewer.py
lines 430-448): marker filter, dedup on the first 400 characters of the
raw chunk, parse, keep dicts, stop at `limit`.  `parse` models
`json.loads` (`none` = parse failure). -/
def objsFromTextLoop (parse : String → Option Json) (limit : Nat) :
    List String → List String → List Json → List Json
  | [], _, objs => objs
  | chunk :: rest, seen, objs =>
      if !(strContains chunk "\"text\"" || strContains chunk "\"content\"" ||
           strContains chunk "\"prompt\"" || strContains chunk "\"message\"") then
        objsFromTextLoop parse limit rest seen objs
      else
        let key := pyTrunc chunk 400
        if key ∈ seen then objsFromTextLoop parse limit rest seen objs
        else
          match parse chunk with
          | some (Json.obj f) =>
              let objs' := objs ++ [Json.obj f]
              if limit ≤ objs'.length then objs'
              else objsFromTextLoop parse limit rest (seen ++ [key]) objs'
          | _ => objsFromTextLoop parse limit rest (seen ++ [key]) objs

/-- `_extract_json_objects_from_text(text, limit)` (viewer.py lines
430-448). -/
def extractJsonObjectsFromText (parse : String → Option Json) (text : String)
    (limit : Nat) : List Json :=
  objsFromTextLoop parse limit (extractJsonCandidatesBalanced text (limit * 6)) [] []

/-- The per-text object loop of `_extract_json_objects_from_bytes`
(viewer.py lines 458-469): dedup on the first 400 characters of the
canonical re-serialization; the `Bool` records the early `return` at
`limit`. -/
def objsFromBytesInner (limit : Nat) :
    List Json → List String → List Json → List String × List Json × Bool
  | [], seen, out => (seen, out, false)
  | obj :: rest, seen, out =>
      let sig := pyTrunc (Json.dumps obj) 400
      if sig ∈ seen then objsFromBytesInner limit rest seen out
      else
        let out' := out ++ [obj]
        if limit ≤ out'.length then (seen ++ [sig], out', true)
        else objsFromBytesInner limit rest (seen ++ [sig]) out'

/-- The decoded-texts loop of `_extract_json_objects_from_bytes`. -/
def objsFromBytesOuter (parse : String → Option Json) (limit : Nat) :
    List String → List String → List Json → List Json
  | [], _, out => out
  | text :: rest, seen, out =>
      if text = "" then objsFromBytesOuter parse limit rest seen out
      else
        match objsFromBytesInner limit (extractJsonObjectsFromText parse text limit) seen out with
        | (seen', out', full) =>
            if full then out' else objsFromBytesOuter parse limit rest seen' out'

/-- `_extract_json_objects_from_bytes(raw, limit)` (viewer.py lines
451-470).  `d8`/`d16` model `raw.decode("utf-8", errors="ignore")` and
`raw.decode("utf-16le", errors="ignore")`. -/
def extractJsonObjectsFromBytes (d8 d16 : List Nat → String)
    (parse : String → Option Json) (raw : List Nat) (limit : Nat) : List Json :=
  objsFromBytesOuter parse limit [d8 raw, d16 raw] [] []

/-- The character class of the readable-run regex
`[ -~぀-ヿ一-鿿]` (viewer.py line 483). -/
def isReadableChar (c : Char) : Bool :=
  (' ' ≤ c && c ≤ '~') || (0x3040 ≤ c.toNat && c.toNat ≤ 0x30FF) ||
    (0x4E00 ≤ c.toNat && c.toNat ≤ 0x9FFF)

/-- Maximal runs of readable characters, in order (`cur` accumulates the
current run reversed). -/
def readableRunsAux : List Char → List Char → List (List Char)
  | [], cur => if cur.isEmpty then [] else [cur.reverse]
  | c :: rest, cur =>
      if isReadableChar c then readableRunsAux rest (c :: cur)
      else if cur.isEmpty then readableRunsAux rest []
      else cur.reverse :: readableRunsAux rest []

/-- `re.finditer` with quantifier `{24,300}` inside one maximal readable
run: greedy 300-character matches from the left; a leftover shorter than
24 yields no further match. -/
def regexSegments (run : List Char) : List (List Char) :=
  if _h : run.length < 24 then []
  else run.take 300 :: regexSegments (run.drop 300)
termination_by run.length
decreasing_by
  simp_wf
  omega

/-- All matches of `[ -~぀-ヿ一-鿿]{24,300}` over a text,
in order. -/
def readableMatches (text : String) : List String :=
  (((readableRunsAux text.data []).map regexSegments).flatten).map
    fun l => (⟨l⟩ : String)

/-- The per-match loop of `_extract_readable_snippets` (viewer.py lines
482-495): strip, re-check length, drop store-noise matches, dedup on the
first 160 characters; the `Bool` records the early `return` at `limit`. -/
def snippetsInner (limit : Nat) :
    List String → List String → List String → List String × List String × Bool
  | [], seen, snips => (seen, snips, false)
  | m :: rest, seen, snips =>
      let s := pyStrip m
      if s.length < 24 then snippetsInner limit rest seen snips
      else if strContains s "IndexedDB" || strContains s "LEVELDB" then
        snippetsInner limit rest seen snips
      else
        let key := pyTrunc s 160
        if key ∈ seen then snippetsInner limit rest seen snips
        else
          let snips' := snips ++ [s]
          if limit ≤ snips'.length then (seen ++ [key], snips', true)
          else snippetsInner limit rest (seen ++ [key]) snips'

/-- The decoded-texts loop of `_extract_readable_snippets`. -/
def snippetsOuter (limit : Nat) :
    List String → List String → List String → List String
  | [], _, snips => snips
  | text :: rest, seen, snips =>
      if text = "" then snippetsOuter limit rest seen snips
      else
        match snippetsInner limit (readableMatches text) seen snips with
        | (seen', snips', full) =>
            if full then snips' else snippetsOuter limit rest seen' snips'

/-- `_extract_readable_snippets(raw, limit)` (viewer.py lines 473-496). -/
def extractReadableSnippets (d8 d16 : List Nat → String) (raw : List Nat)
    (limit : Nat) : List String :=
  snippetsOuter limit [d8 raw, d16 raw] [] []

/-- One normalized event (§ Event of the data model). -/
structure Event where
  timestamp : String
  kind : String
  role : String
  text : String
deriving DecidableEq, Repr

/-- The `{"events": ..., "raw_line_count": ...}` result of the event
loaders. -/
structure LoadResult where
  events : List Event
  raw_line_count : Nat
deriving DecidableEq, Repr

/-- `MAX_EVENTS` (viewer.py line 13). -/
def maxEvents : Nat := 4000

/-- The per-record body of the `load_cli_events` loop (viewer.py lines
627-662) for a record that is a dict. -/
def cliEventOfObj (fmt : ℚ → Option String) (fields : JsonFields) :
    Event :=
  let obj := Json.obj fields
  let ts := extractTsFromObj fmt obj
  let typ := Json.getD fields "type" (Json.str "")
  let role0 := guessRole obj
  let fallback : String × String × String :=
    let t := extractClaudeMessageText (Json.getD fields "message" Json.null)
    let t := if t = "" then pyStrip ("\n".intercalate (extractTextRecursive obj)) else t
    ("event", role0, t)
  let krt : String × String × String :=
    match typ with
    | Json.str s =>
        if s = "user" then
          ("message", "user", extractClaudeMessageText (Json.getD fields "message" Json.null))
        else if s = "assistant" then
          ("message", "assistant", extractClaudeMessageText (Json.getD fields "message" Json.null))
        else if s = "queue-operation" then
          let op := Json.getD fields "operation" (Json.str "")
          let content := Json.getD fields "content" (Json.str "")
          ("queue", "system", pyStrip (Json.pyStr op ++ "\n" ++ Json.pyStr content))
        else if s = "progress" then
          ("progress", "system", extractClaudeProgressText fields)
        else if s = "system" then
          ("system", "system", Json.dumps obj)
        else fallback
    | _ => fallback
  let text := if krt.2.2 = "" then pyTrunc (Json.dumps obj) 1000 else krt.2.2
  ⟨ts, krt.1, krt.2.1, text⟩

/-- The per-record body of `load_cli_events`: `none` models the uncaught
`AttributeError` raised by `obj.get("type", "")` when the parsed record is
not a dict (the `try` covers only `json.loads`). -/
def cliEventOf (fmt : ℚ → Option String) (obj : Json) : Option Event :=
  match obj with
  | Json.obj fields => some (cliEventOfObj fmt fields)
  | _ => none

/-- The line loop of `load_cli_events` (viewer.py lines 617-664):
`events`/`raw` accumulate `events`/`raw_count`; `none` propagates the
uncaught exception on a parseable non-dict line. -/
def loadCliAux (fmt : ℚ → Option String) (parse : String → Option Json) :
    List String → List Event → Nat → Option LoadResult
  | [], events, raw => some ⟨events, raw⟩
  | line :: rest, events, raw =>
      let l := pyStrip line
      if l = "" then loadCliAux fmt parse rest events (raw + 1)
      else
        match parse l with
        | none => loadCliAux fmt parse rest events (raw + 1)
        | some obj =>
            match cliEventOf fmt obj with
            | none => none
            | some ev =>
                let events' := events ++ [ev]
                if maxEvents ≤ events'.length then some ⟨events', raw + 1⟩
                else loadCliAux fmt parse rest events' (raw + 1)

/-- `load_cli_events(path)` (viewer.py lines 614-665) over the artifact's
lines (the caller's file read and line split are its I/O). -/
def loadCliEvents (fmt : ℚ → Option String) (parse : String → Option Json)
    (lines : List String) : Option LoadResult :=
  loadCliAux fmt parse lines [] 0

/-- The heuristic-reconstruction notice text of `load_desktop_events`
(viewer.py lines 691-694). -/
def desktopNotice : String :=
  "Claude Desktop の IndexedDB(LevelDB) はバイナリ形式のため、ここでは文字列/JSONスニペット抽出で表示しています。 完全な履歴復元ではありません。"

/-- `load_desktop_events(path)` (viewer.py lines 668-696) over the
already-read byte buffer (the byte-ceiling read is the caller's I/O). -/
def loadDesktopEvents (fmt : ℚ → Option String) (d8 d16 : List Nat → String)
    (parse : String → Option Json) (raw : List Nat) : LoadResult :=
  let objs := extractJsonObjectsFromBytes d8 d16 parse raw maxEvents
  let events :=
    if objs.isEmpty then
      (extractReadableSnippets d8 d16 raw 800).map
        fun s => Event.mk "" "snippet" "system" s
    else
      objs.filterMap fun obj =>
        let text := pyStrip ("\n".intercalate (extractTextRecursive obj))
        if text = "" then none
        else some (Event.mk (extractTsFromObj fmt obj) "snippet" (guessRole obj)
          (pyTrunc text 4000))
  let events := Event.mk "" "notice" "system" desktopNotice :: events
  ⟨events.take maxEvents, events.length⟩

/-- Python `s.split(sep)` for a one-character separator (never returns an
empty list). -/
def splitOnChar (sep : Char) : List Char → List (List Char)
  | [] => [[]]
  | c :: rest =>
      let r := splitOnChar sep rest
      if c = sep then [] :: r
      else
        match r with
        | g :: gs => (c :: g) :: gs
        | [] => [[c]]

/-- The slug-tail normalization branch of `_to_windows_path_display`
(viewer.py lines 343-351): separators converted to backslashes, then a
`<DRIVE>:\-a-b-c` shape re-split on dashes. -/
def windowsSlugNormalize (s : String) : String :=
  let conv := s.data.map fun c => if c = '/' then '\\' else c
  match conv with
  | d :: ':' :: '\\' :: '-' :: tail =>
      if d.isAlpha && !tail.isEmpty && !(tail.contains '\\') then
        let parts := (splitOnChar '-' tail).filter (· ≠ [])
        (⟨[d.toUpper, ':', '\\']⟩ : String) ++
          String.intercalate "\\" (parts.map fun l => (⟨l⟩ : String))
      else ⟨conv⟩
  | _ => ⟨conv⟩

/-- `_to_windows_path_display(path_str)` (viewer.py lines 332-351),
modelled for newline-free inputs (the regexes use `.`/`$`). -/
def toWindowsPathDisplay (s0 : String) : String :=
  let s := pyStrip s0
  if s = "" then ""
  else
    match s.data with
    | '/' :: 'm' :: 'n' :: 't' :: '/' :: d :: '/' :: rest =>
        if d.isAlpha then
          ⟨[d.toUpper, ':', '\\'] ++ rest.map fun c => if c = '/' then '\\' else c⟩
        else windowsSlugNormalize s
    | _ => windowsSlugNormalize s

/-- `_decode_project_slug_to_windows_path(project_slug)` (viewer.py lines
354-377). -/
def decodeProjectSlug (s0 : String) : String :=
  let s := pyStrip s0
  if s = "" then ""
  else if s.data.contains '/' || s.data.contains '\\' || !(s.data.contains '-') then s
  else
    let parts := (splitOnChar '-' (s.data.dropWhile (· = '-'))).filter (· ≠ [])
    if parts.isEmpty then s
    else
      let p0 := parts.getD 0 []
      let p1 := parts.getD 1 []
      if 3 ≤ parts.length && pyLower ⟨p0⟩ = "mnt" && p1.length = 1 &&
          p1.all Char.isAlpha then
        (⟨[(p1.headD ' ').toUpper, ':', '\\']⟩ : String) ++
          String.intercalate "\\" ((parts.drop 2).map fun l => (⟨l⟩ : String))
      else if 2 ≤ parts.length && p0.length = 1 && p0.all Char.isAlpha then
        (⟨[(p0.headD ' ').toUpper, ':', '\\']⟩ : String) ++
          String.intercalate "\\" ((parts.drop 1).map fun l => (⟨l⟩ : String))
      else String.intercalate "\\" (parts.map fun l => (⟨l⟩ : String))

/-- `_project_display_label(raw_project, cwd)` (viewer.py lines 380-383). -/
def projectDisplayLabel (rawProject cwd : String) : String :=
  if pyStrip cwd ≠ "" then toWindowsPathDisplay cwd
  else decodeProjectSlug rawProject

/-- `_is_probably_textual_json_line(line)` (viewer.py lines 386-388). -/
def probablyTextualJsonLine (line : String) : Bool :=
  let s := pyStrip line
  s.data.head? = some '\x7b' && s.data.getLast? = some '\x7d'

/-- One session summary (§ SessionSummary of the data model). -/
structure SessionSummary where
  id : String
  path : String
  relative_path : String
  source : String
  source_type : String
  project : String
  mtime : String
  started_at : String
  cwd : String
  model : String
  first_user_text : String
  search_text : String
deriving DecidableEq, Repr

/-- The artifact metadata the caller's I/O supplies (`path.stem`,
`str(path)`, the root-relative path and the formatted `st_mtime`). -/
structure ArtifactMeta where
  id : String
  path : String
  relative_path : String
  mtime : String

/-- `search_limit` (viewer.py line 522). -/
def searchLimit : Nat := 2500

/-- The mutable summary state of the `summarize_cli_session` loop. -/
structure CliSumSt where
  started_at : String
  model : String
  cwd : String
  first_user_text : String
  chunks : List String
deriving DecidableEq, Repr

/-- The `for k in ("model", "model_name", "modelName")` pick of
`summarize_cli_session` (viewer.py lines 535-539): first non-empty string
value wins. -/
def cliModelGo (fields : JsonFields) : List String → Option String
  | [] => none
  | k :: rest =>
      match Json.getOpt fields k with
      | some (Json.str v) => if v ≠ "" then some v else cliModelGo fields rest
      | _ => cliModelGo fields rest

/-- Model pick over a record (`obj.get(k) if isinstance(obj, dict) else
None`). -/
def cliModelPick (obj : Json) : Option String :=
  match obj with
  | Json.obj fields => cliModelGo fields ["model", "model_name", "modelName"]
  | _ => none

/-- The `cwd` pick of `summarize_cli_session` (viewer.py lines 540-543):
any string value, including the empty string, is accepted. -/
def cliCwdPick (obj : Json) : Option String :=
  match obj with
  | Json.obj fields =>
      match Json.getOpt fields "cwd" with
      | some (Json.str v) => some v
      | _ => none
  | _ => none

/-- The `started_at`/`model`/`cwd` first-wins fills of the
`summarize_cli_session` loop body (viewer.py lines 532-543). -/
def cliMetaUpdate (fmt : ℚ → Option String) (obj : Json) (st : CliSumSt) :
    CliSumSt :=
  let st := if st.started_at = "" then
    { st with started_at := extractTsFromObj fmt obj } else st
  let st := if st.model = "" then
    (match cliModelPick obj with
     | some v => { st with model := v }
     | none => st) else st
  if st.cwd = "" then
    (match cliCwdPick obj with
     | some v => { st with cwd := v }
     | none => st) else st

/-- The text part of the `summarize_cli_session` loop body (viewer.py
lines 544-551): fill `first_user_text` on the first user record with
harvested text, and append a search chunk while the budget allows. -/
def cliTextUpdate (obj : Json) (st : CliSumSt) : CliSumSt :=
  let role := guessRole obj
  let texts := extractTextRecursive obj
  if texts.isEmpty then st
  else
    let text := pyStrip (" ".intercalate texts)
    let st := if role = "user" ∧ st.first_user_text = "" then
      { st with first_user_text := pyTrunc (replaceNl text) 180 } else st
    if (" ".intercalate st.chunks).length < searchLimit then
      { st with chunks := st.chunks ++ [pyTrunc (replaceNl text) 320] }
    else st

/-- The per-record body of the `summarize_cli_session` loop (viewer.py
lines 532-551). -/
def summarizeCliStep (fmt : ℚ → Option String) (obj : Json) (st : CliSumSt) :
    CliSumSt :=
  cliTextUpdate obj (cliMetaUpdate fmt obj st)

/-- The line loop of `summarize_cli_session` (viewer.py lines 524-553):
non-record-looking lines and parse failures are skipped; the loop breaks
once `first_user_text` is set and the search budget is exhausted. -/
def summarizeCliLoop (fmt : ℚ → Option String) (parse : String → Option Json) :
    List String → CliSumSt → CliSumSt
  | [], st => st
  | line :: rest, st =>
      if !(probablyTextualJsonLine line) then summarizeCliLoop fmt parse rest st
      else
        match parse line with
        | none => summarizeCliLoop fmt parse rest st
        | some obj =>
            let st' := summarizeCliStep fmt obj st
            if st'.first_user_text ≠ "" ∧
                searchLimit ≤ (" ".intercalate st'.chunks).length then st'
            else summarizeCliLoop fmt parse rest st'

/-- The project prefix of the relative path (viewer.py lines 515-519). -/
def projectRawOfRel (rel : String) : String :=
  if rel.data.contains '/' then ⟨rel.data.takeWhile (· ≠ '/')⟩
  else if rel.data.contains '\\' then ⟨rel.data.takeWhile (· ≠ '\\')⟩
  else ""

/-- `summarize_cli_session(path, root)` (viewer.py lines 499-559) over the
artifact's lines. -/
def summarizeCliSession (meta : ArtifactMeta) (fmt : ℚ → Option String)
    (parse : String → Option Json) (lines : List String) : SessionSummary :=
  let st := summarizeCliLoop fmt parse lines ⟨"", "", "", "", []⟩
  { id := meta.id, path := meta.path, relative_path := meta.relative_path,
    source := "Claude Code CLI", source_type := "claude_cli",
    project := projectDisplayLabel (projectRawOfRel meta.relative_path) st.cwd,
    mtime := meta.mtime, started_at := st.started_at, cwd := st.cwd,
    model := st.model, first_user_text := st.first_user_text,
    search_text := " ".intercalate st.chunks }

/-- The mutable summary state of the `summarize_desktop_blob` object
loop. -/
structure DeskSumSt where
  started_at : String
  first_user_text : String
  texts : List String
deriving DecidableEq, Repr

/-- The `started_at` first-wins fill of the `summarize_desktop_blob`
object loop (viewer.py lines 588-589). -/
def deskMetaUpdate (fmt : ℚ → Option String) (obj : Json) (st : DeskSumSt) :
    DeskSumSt :=
  if st.started_at = "" then
    { st with started_at := extractTsFromObj fmt obj } else st

/-- The text part of the `summarize_desktop_blob` object loop (viewer.py
lines 590-596). -/
def deskTextUpdate (obj : Json) (st : DeskSumSt) : DeskSumSt :=
  let role := guessRole obj
  let parts := extractTextRecursive obj
  if parts.isEmpty then st
  else
    let merged := pyStrip (" ".intercalate parts)
    let st := if role = "user" ∧ st.first_user_text = "" then
      { st with first_user_text := pyTrunc (replaceNl merged) 180 } else st
    { st with texts := st.texts ++ [pyTrunc (replaceNl merged) 320] }

/-- The object loop of `summarize_desktop_blob` (viewer.py lines
586-596). -/
def summarizeDesktopLoop (fmt : ℚ → Option String) :
    List Json → DeskSumSt → DeskSumSt
  | [], st => st
  | obj :: rest, st =>
      summarizeDesktopLoop fmt rest (deskTextUpdate obj (deskMetaUpdate fmt obj st))

/-- `summarize_desktop_blob(path, root)` (viewer.py lines 562-605) over
the already-read byte buffer. -/
def summarizeDesktopBlob (meta : ArtifactMeta) (fmt : ℚ → Option String)
    (d8 d16 : List Nat → String) (parse : String → Option Json)
    (raw : List Nat) : SessionSummary :=
  let base : SessionSummary :=
    { id := meta.id, path := meta.path, relative_path := meta.relative_path,
      source := "Claude Desktop (IndexedDB/LevelDB)",
      source_type := "claude_desktop", project := "(desktop)",
      mtime := meta.mtime, started_at := "", cwd := "", model := "",
      first_user_text := "", search_text := "" }
  let objs := extractJsonObjectsFromBytes d8 d16 parse raw 40
  if !objs.isEmpty then
    let st := summarizeDesktopLoop fmt objs ⟨"", "", []⟩
    let first :=
      if st.first_user_text = "" ∧ !st.texts.isEmpty then
        pyTrunc (st.texts.headD "") 180
      else st.first_user_text
    { base with
        started_at := st.started_at
        first_user_text := first
        search_text := " ".intercalate (st.texts.take 20) }
  else
    let snippets := extractReadableSnippets d8 d16 raw 10
    let first :=
      if !snippets.isEmpty && base.first_user_text = "" then
        pyTrunc (snippets.headD "") 180
      else base.first_user_text
    { base with
        search_text := " ".intercalate snippets
        first_user_text := first }

/-- A formatter that always fails (every `fromtimestamp` call raises). -/
def fmtNone : ℚ → Option String := fun _ => none

/-- A parser that always fails. -/
def parseNone : String → Option Json := fun _ => none

/-- A decoder returning the empty text. -/
def decodeEmpty : List Nat → String := fun _ => ""

/-- The record of the C7 counterexample:
`{"type": "user", "role": "assistant"}`. -/
def objC7 : Json := jobj [("type", Json.str "user"), ("role", Json.str "assistant")]

/-- The line whose `json.loads` value is `objC7`. -/
def lineC7 : String := "\x7b\"type\": \"user\", \"role\": \"assistant\"\x7d"

/-- `json.loads` restricted to the C7 artifact. -/
def parseC7 : String → Option Json := fun s => if s = lineC7 then some objC7 else none

/-- The one-line artifact `\x7b\x7d` used by the C5 counterexample. -/
def lineBrace : String := "\x7b\x7d"

/-- `json.loads` restricted to the C5 counterexample's line. -/
def parseBrace : String → Option Json :=
  fun s => if s = lineBrace then some (jobj []) else none

/-- The event produced for each `\x7b\x7d` line. -/
def evBrace : Event := cliEventOfObj fmtNone (JsonFields.ofList [])

/-- The role enum of the data model. -/
def validRoles : List String := ["user", "assistant", "developer", "system"]

/-- The kinds a CLI event can carry. -/
def cliKinds : List String := ["message", "queue", "progress", "system", "event"]

/-- `json.loads` restricted to the C1 failing input (the line `3` parses
to the Python int 3). -/
def parse3 : String → Option Json := fun s => if s = "3" then some (Json.num 3) else none

/-- The dedup signature of `_extract_json_objects_from_bytes`: the first
400 characters of the canonical re-serialization. -/
def dumpSig (o : Json) : String := pyTrunc (Json.dumps o) 400

/-- 500 `a` characters: padding that pushes the distinguishing character
past the 400-character dedup prefix. -/
def padA : String := ⟨List.replicate 500 'a'⟩

/-- `{"text": "aa…aX"}` (514 characters). -/
def chunkX : String := "\x7b\"text\": \"" ++ padA ++ "X\"\x7d"

/-- `{"text": "aa…aY"}` (514 characters). -/
def chunkY : String := "\x7b\"text\": \"" ++ padA ++ "Y\"\x7d"

/-- The parsed object of `chunkX`. -/
def objX : Json := jobj [("text", Json.str (padA ++ "X"))]

/-- The parsed object of `chunkY`. -/
def objY : Json := jobj [("text", Json.str (padA ++ "Y"))]

/-- The decoded text containing both records back to back. -/
def textC4 : String := chunkX ++ chunkY

/-- `json.loads` restricted to the two C4 chunks. -/
def parseC4 : String → Option Json :=
  fun s => if s = chunkX then some objX else if s = chunkY then some objY else none

/-- A decoder pair presenting `textC4` under the first decoding only. -/
def d8C4 : List Nat → String := fun _ => textC4

/-- 320 `a` characters. -/
def pad320 : String := ⟨List.replicate 320 'a'⟩

/-- A record line whose harvested text is 320 characters long. -/
def line320 : String := "\x7b\"text\": \"" ++ pad320 ++ "\"\x7d"

/-- The parsed object of `line320`. -/
def obj320 : Json := jobj [("text", Json.str pad320)]

/-- `json.loads` restricted to the C8 artifact's line. -/
def parse320 : String → Option Json :=
  fun s => if s = line320 then some obj320 else none

/-- Artifact metadata for the C8 counterexample. -/
def metaC8 : ArtifactMeta := ⟨"s1", "/p/s1.jsonl", "proj/s1.jsonl", "2024-01-01T00:00:00"⟩

/-- The `first_user_text` contribution of one CLI record: the truncated
text when the record classifies as user and harvests text, else empty. -/
def cliRecFirst (obj : Json) : String :=
  if guessRole obj = "user" ∧ ¬(extractTextRecursive obj).isEmpty then
    pyTrunc (replaceNl (pyStrip (" ".intercalate (extractTextRecursive obj)))) 180
  else ""

/-- Reference definition following the spec's words: `first_user_text` is
the (truncated) text of the first line whose record classifies role=user
with non-empty harvested text, never overwritten afterward. -/
def cliFirstUserSpec (parse : String → Option Json) (lines : List String) : String :=
  (lines.filterMap fun l =>
    if probablyTextualJsonLine l then
      match parse l with
      | some obj => if cliRecFirst obj ≠ "" then some (cliRecFirst obj) else none
      | none => none
    else none).headD ""

/-- The `texts` entry of one desktop record: its 320-truncated merged
text, when it harvests any. -/
def deskTextOf (obj : Json) : Option String :=
  if ¬(extractTextRecursive obj).isEmpty then
    some (pyTrunc (replaceNl (pyStrip (" ".intercalate (extractTextRecursive obj)))) 320)
  else none

/-- The `first_user_text` contribution of one desktop record. -/
def deskRecFirst (obj : Json) : String :=
  if guessRole obj = "user" ∧ ¬(extractTextRecursive obj).isEmpty then
    pyTrunc (replaceNl (pyStrip (" ".intercalate (extractTextRecursive obj)))) 180
  else ""

/-- Reference definition following the spec's words, for the desktop
object loop: the truncated text of the first user-classified record with
non-empty harvested text. -/
def deskFirstUserSpec (objs : List Json) : String :=
  (objs.filterMap fun obj =>
    if deskRecFirst obj ≠ "" then some (deskRecFirst obj) else none).headD ""

/-- The stop condition of the inner scan after `m` characters: the state
reached by folding `scanStep` over the first `m` characters is outside a
string, the character at `m` is a closing brace, and consuming it returns
the genuine depth to zero (viewer.py lines 414-420). -/
def stopCond (st : ScanSt) (cs : List Char) (m : Nat) : Prop :=
  ((cs.take m).foldl scanStep st).inStr = false ∧ cs.getD m ' ' = '\x7d' ∧
    ((cs.take m).foldl scanStep st).depth - 1 = 0

/-- The C3 boundary example: a record whose string value holds an opening
brace. -/
def exText : String := "\x7b\"text\": \"\x7b\", \"pad\": \"aaaaaaaaaaaa\"\x7d"

/-! ## Helper lemmas -/
/-- The desktop record of the C9 counterexample: an assistant-classified
record carrying text. -/
def chunkC9 : String :=
  "\x7b\"text\": \"hello from the assistant side\", \"role\": \"assistant\"\x7d"

/-- The parsed object of `chunkC9`. -/
def objC9A : Json :=
  jobj [("text", Json.str "hello from the assistant side"),
        ("role", Json.str "assistant")]

/-- `json.loads` restricted to the C9 desktop chunk. -/
def parseC9 : String → Option Json :=
  fun s => if s = chunkC9 then some objC9A else none

/-- A decoder presenting `chunkC9` under the first decoding. -/
def d8C9 : List Nat → String := fun _ => chunkC9

/-- Artifact metadata for the C9 fixtures. -/
def metaC9 : ArtifactMeta := ⟨"blob", "/d/blob", "blob", "2024-01-01T00:00:00"⟩

/-- A CLI line whose record classifies as user with text (C9 witness). -/
def lineU : String := "\x7b\"role\": \"user\", \"text\": \"hi there everyone\"\x7d"

/-- The parsed object of `lineU`. -/
def objU : Json :=
  jobj [("role", Json.str "user"), ("text", Json.str "hi there everyone")]

/-- `json.loads` restricted to `lineU`. -/
def parseU : String → Option Json :=
  fun s => if s = lineU then some objU else none

theorem pyTrunc_length_le (s : String) (n : Nat) : (pyTrunc s n).length ≤ n := by
  show (s.data.take n).length ≤ n
  simp

theorem length_take_le_maxEvents (l : List Event) :
    (l.take maxEvents).length ≤ maxEvents := by
  simp [List.length_take]

/-- The event-list accumulator of `load_cli_events` never exceeds the cap:
entering the loop strictly below `maxEvents` keeps the result at or below
it. -/
theorem loadCliAux_events_le (fmt : ℚ → Option String)
    (parse : String → Option Json) :
    ∀ (lines : List String) (events : List Event) (raw : Nat) (r : LoadResult),
      events.length < maxEvents →
      loadCliAux fmt parse lines events raw = some r →
      r.events.length ≤ maxEvents := by
  intro lines
  induction lines with
  | nil =>
      intro events raw r hlt h
      simp only [loadCliAux, Option.some.injEq] at h
      subst h
      exact le_of_lt hlt
  | cons l rest ih =>
      intro events raw r hlt h
      simp only [loadCliAux] at h
      split at h
      · exact ih events (raw + 1) r hlt h
      · split at h
        · exact ih events (raw + 1) r hlt h
        · split at h
          · simp at h
          · split at h
            · rw [Option.some.injEq] at h
              subst h
              simp
              omega
            · refine ih _ _ _ ?_ h
              rename_i hnot
              simp at hnot ⊢
              omega

/-- Step lemma: a line that strips to the empty string only counts. -/
theorem loadCliAux_cons_blank (fmt : ℚ → Option String)
    (parse : String → Option Json) (line : String) (lines : List String)
    (events : List Event) (raw : Nat) (h1 : pyStrip line = "") :
    loadCliAux fmt parse (line :: lines) events raw =
      loadCliAux fmt parse lines events (raw + 1) := by
  simp only [loadCliAux, h1]
  simp

/-- Step lemma: a line whose parse fails is skipped and only counts. -/
theorem loadCliAux_cons_badparse (fmt : ℚ → Option String)
    (parse : String → Option Json) (line : String) (lines : List String)
    (events : List Event) (raw : Nat) (h1 : pyStrip line ≠ "")
    (h2 : parse (pyStrip line) = none) :
    loadCliAux fmt parse (line :: lines) events raw =
      loadCliAux fmt parse lines events (raw + 1) := by
  simp only [loadCliAux, h2]
  rw [if_neg h1]

/-- Step lemma: a parseable non-dict line raises (propagates `none`). -/
theorem loadCliAux_cons_nondict (fmt : ℚ → Option String)
    (parse : String → Option Json) (line : String) (lines : List String)
    (events : List Event) (raw : Nat) (obj : Json) (h1 : pyStrip line ≠ "")
    (h2 : parse (pyStrip line) = some obj) (h3 : cliEventOf fmt obj = none) :
    loadCliAux fmt parse (line :: lines) events raw = none := by
  simp only [loadCliAux, h2, h3]
  rw [if_neg h1]

/-- Step lemma: a parseable dict line appends its event and the loop
continues unless the cap is reached. -/
theorem loadCliAux_cons_good (fmt : ℚ → Option String)
    (parse : String → Option Json) (line : String) (lines : List String)
    (events : List Event) (raw : Nat) (obj : Json) (ev : Event)
    (h1 : pyStrip line ≠ "") (h2 : parse (pyStrip line) = some obj)
    (h3 : cliEventOf fmt obj = some ev) :
    loadCliAux fmt parse (line :: lines) events raw =
      (if maxEvents ≤ (events ++ [ev]).length then
        some ⟨events ++ [ev], raw + 1⟩
      else loadCliAux fmt parse lines (events ++ [ev]) (raw + 1)) := by
  simp only [loadCliAux, h2, h3]
  rw [if_neg h1]

/-- C2: for every artifact of either source kind, the returned event list
contains at most `MAX_EVENTS` (4000) events: any result `load_cli_events`
returns obeys the cap, and `load_desktop_events` always obeys it. -/
theorem c2_event_cap :
    (∀ (fmt : ℚ → Option String) (parse : String → Option Json)
        (lines : List String) (r : LoadResult),
      loadCliEvents fmt parse lines = some r → r.events.length ≤ maxEvents) ∧
    (∀ (fmt : ℚ → Option String) (d8 d16 : List Nat → String)
        (parse : String → Option Json) (raw : List Nat),
      (loadDesktopEvents fmt d8 d16 parse raw).events.length ≤ maxEvents) := by
  constructor
  · intro fmt parse lines r h
    exact loadCliAux_events_le fmt parse lines [] 0 r (by simp [maxEvents]) h
  · intro fmt d8 d16 parse raw
    simp only [loadDesktopEvents]
    exact length_take_le_maxEvents _

/-- Witness for `c2_event_cap` at a concrete artifact. -/
theorem c2_event_cap_witness :
    (⟨[], 0⟩ : LoadResult).events.length ≤ maxEvents :=
  c2_event_cap.1 fmtNone parseNone [] ⟨[], 0⟩ rfl

/-- C10: for every opaque-binary artifact the desktop loader returns a
non-empty event list whose first event is the heuristic-reconstruction
notice (kind `notice`, role `system`, empty timestamp), prepended
unconditionally — also when structured JSON recovery succeeds. -/
theorem c10_desktop_notice :
    ∀ (fmt : ℚ → Option String) (d8 d16 : List Nat → String)
      (parse : String → Option Json) (raw : List Nat),
      (loadDesktopEvents fmt d8 d16 parse raw).events ≠ [] ∧
      (loadDesktopEvents fmt d8 d16 parse raw).events.head? =
        some (Event.mk "" "notice" "system" desktopNotice) := by
  intro fmt d8 d16 parse raw
  simp only [loadDesktopEvents]
  constructor
  · show (Event.mk "" "notice" "system" desktopNotice :: _).take maxEvents ≠ []
    simp [maxEvents]
  · show ((Event.mk "" "notice" "system" desktopNotice :: _).take maxEvents).head? = _
    simp [maxEvents]

/-- C6 counterexample: the claim says numeric values ≥ 10^12 are treated
as millisecond epoch (divided by 1000), but the source's comparison is
strict, so exactly 10^12 is not divided. -/
theorem c6_counterexample :
    epochAdjust 1000000000000 ≠ 1000000000000 / 1000 := by
  norm_num [epochAdjust]

/-- C6 (amended): numeric values strictly greater than 10^12 are treated
as millisecond epoch (divided by 1000) before conversion, values at or
below 10^12 as second epoch; in particular normalizing `1700000000` and
`1700000000000` hands the same canonical instant to the converter, for
every converter. -/
theorem c6_epoch_heuristic :
    (∀ x : ℚ, 1000000000000 < x → epochAdjust x = x / 1000) ∧
    (∀ x : ℚ, x ≤ 1000000000000 → epochAdjust x = x) ∧
    (∀ fmt : ℚ → Option String,
      isoFromTs fmt (Json.num 1700000000) = isoFromTs fmt (Json.num 1700000000000)) := by
  refine ⟨?_, ?_, ?_⟩
  · intro x hx
    simp [epochAdjust, hx]
  · intro x hx
    simp [epochAdjust]
    intro hlt
    exact absurd hx (by push_neg; exact hlt)
  · intro fmt
    show (fmt (epochAdjust ((1700000000 : Int) : ℚ))).getD "" =
      (fmt (epochAdjust ((1700000000000 : Int) : ℚ))).getD ""
    have h1 : epochAdjust ((1700000000 : Int) : ℚ) = 1700000000 := by
      norm_num [epochAdjust]
    have h2 : epochAdjust ((1700000000000 : Int) : ℚ) = 1700000000 := by
      norm_num [epochAdjust]
    rw [h1, h2]

/-- Witness for `c6_epoch_heuristic` at concrete inputs. -/
theorem c6_epoch_heuristic_witness :
    epochAdjust 2000000000000 = 2000000000000 / 1000 ∧ epochAdjust 5 = 5 :=
  ⟨c6_epoch_heuristic.1 2000000000000 (by norm_num),
   c6_epoch_heuristic.2.1 5 (by norm_num)⟩

/-- C7 counterexample: on a record of type `user` whose top-level `role`
field says `assistant`, the loader's event carries role `user` while the
RoleClassifier (`_guess_role`) returns `assistant` — so the event role is
not always the classifier's output. -/
theorem c7_counterexample :
    (loadCliEvents fmtNone parseC7 [lineC7]).map (fun r => r.events.map fun e => e.role) =
      some ["user"] ∧
    guessRole objC7 = "assistant" := by
  constructor <;> decide

/-- C7 (amended): the event role equals the RoleClassifier's output
exactly when the record's `type` discriminant is not one of the five
specially handled values; for those, the role is forced (`user` → `user`,
`assistant` → `assistant`, `queue-operation`/`progress`/`system` →
`system`). -/
theorem c7_role (fmt : ℚ → Option String) (fields : JsonFields) :
    (Json.getD fields "type" (Json.str "") = Json.str "user" →
      (cliEventOfObj fmt fields).role = "user") ∧
    (Json.getD fields "type" (Json.str "") = Json.str "assistant" →
      (cliEventOfObj fmt fields).role = "assistant") ∧
    ((Json.getD fields "type" (Json.str "") = Json.str "queue-operation" ∨
      Json.getD fields "type" (Json.str "") = Json.str "progress" ∨
      Json.getD fields "type" (Json.str "") = Json.str "system") →
      (cliEventOfObj fmt fields).role = "system") ∧
    ((∀ s : String, Json.getD fields "type" (Json.str "") = Json.str s →
        s ∉ (["user", "assistant", "queue-operation", "progress", "system"] : List String)) →
      (cliEventOfObj fmt fields).role = guessRole (Json.obj fields)) := by
  refine ⟨?_, ?_, ?_, ?_⟩
  · intro h
    simp only [cliEventOfObj, h]
    simp
  · intro h
    simp only [cliEventOfObj, h]
    simp
  · intro h
    rcases h with h | h | h <;>
      · simp only [cliEventOfObj, h]
        simp
  · intro h
    simp only [cliEventOfObj]
    cases htyp : Json.getD fields "type" (Json.str "") with
    | str s =>
        have hs := h s htyp
        simp at hs
        obtain ⟨h1, h2, h3, h4, h5⟩ := hs
        simp [h1, h2, h3, h4, h5]
    | null => simp
    | bool b => simp
    | num n => simp
    | arr elems => simp
    | obj o => simp

/-- Witness for `c7_role` at a record with no `type` field. -/
theorem c7_role_witness :
    (cliEventOfObj fmtNone JsonFields.nil).role = guessRole (Json.obj JsonFields.nil) :=
  (c7_role fmtNone JsonFields.nil).2.2.2 (fun s hs => by
    injection hs with h
    subst h
    decide)

/-- Any returned raw line count is bounded by the number of lines. -/
theorem loadCliAux_raw_le (fmt : ℚ → Option String)
    (parse : String → Option Json) :
    ∀ (lines : List String) (events : List Event) (raw : Nat) (r : LoadResult),
      loadCliAux fmt parse lines events raw = some r →
      r.raw_line_count ≤ raw + lines.length := by
  intro lines
  induction lines with
  | nil =>
      intro events raw r h
      simp only [loadCliAux, Option.some.injEq] at h
      subst h
      simp
  | cons l rest ih =>
      intro events raw r h
      simp only [loadCliAux] at h
      split at h
      · have := ih events (raw + 1) r h
        simp only [List.length_cons]
        omega
      · split at h
        · have := ih events (raw + 1) r h
          simp only [List.length_cons]
          omega
        · split at h
          · simp at h
          · split at h
            · rw [Option.some.injEq] at h
              subst h
              simp only [List.length_cons]
              omega
            · have := ih _ _ _ h
              simp only [List.length_cons]
              omega

/-- When the loop ends below the cap it has consumed every line. -/
theorem loadCliAux_raw_eq (fmt : ℚ → Option String)
    (parse : String → Option Json) :
    ∀ (lines : List String) (events : List Event) (raw : Nat) (r : LoadResult),
      loadCliAux fmt parse lines events raw = some r →
      r.events.length < maxEvents →
      r.raw_line_count = raw + lines.length := by
  intro lines
  induction lines with
  | nil =>
      intro events raw r h hlt
      simp only [loadCliAux, Option.some.injEq] at h
      subst h
      simp
  | cons l rest ih =>
      intro events raw r h hlt
      simp only [loadCliAux] at h
      split at h
      · rw [ih events (raw + 1) r h hlt]
        simp only [List.length_cons]
        omega
      · split at h
        · rw [ih events (raw + 1) r h hlt]
          simp only [List.length_cons]
          omega
        · split at h
          · simp at h
          · split at h
            · rename_i hcap
              rw [Option.some.injEq] at h
              subst h
              simp only [List.length_append, List.length_singleton] at hcap
              simp at hlt
              omega
            · rw [ih _ _ _ h hlt]
              simp only [List.length_cons]
              omega

/-- C5 (amended): the raw line count equals the total number of lines
whenever fewer than `MAX_EVENTS` events are produced; once the cap is
reached the loop breaks, so counting stops at the line that produced the
capping event, and the count never exceeds the number of lines. -/
theorem c5_raw_line_count (fmt : ℚ → Option String)
    (parse : String → Option Json) (lines : List String) (r : LoadResult)
    (h : loadCliEvents fmt parse lines = some r) :
    (r.events.length < maxEvents → r.raw_line_count = lines.length) ∧
    r.raw_line_count ≤ lines.length := by
  constructor
  · intro hlt
    simpa using loadCliAux_raw_eq fmt parse lines [] 0 r h hlt
  · simpa using loadCliAux_raw_le fmt parse lines [] 0 r h

/-- Witness for `c5_raw_line_count` at a concrete artifact. -/
theorem c5_raw_line_count_witness :
    (⟨[], 0⟩ : LoadResult).raw_line_count = ([] : List String).length :=
  (c5_raw_line_count fmtNone parseNone [] ⟨[], 0⟩ rfl).1 (by simp [maxEvents])

/-- Closed form of the loader on `n` copies of `\x7b\x7d`: both the event
count and the raw line count stop at the cap. -/
theorem loadCliAux_braces :
    ∀ (n : Nat) (events : List Event) (raw : Nat),
      events.length < maxEvents →
      ∃ r, loadCliAux fmtNone parseBrace (List.replicate n lineBrace) events raw = some r ∧
        r.raw_line_count = raw + min n (maxEvents - events.length) ∧
        r.events.length = events.length + min n (maxEvents - events.length) := by
  intro n
  induction n with
  | zero =>
      intro events raw h
      exact ⟨⟨events, raw⟩, rfl, by simp, by simp⟩
  | succ n ih =>
      intro events raw h
      have hb1 : pyStrip lineBrace ≠ "" := by decide
      have hbeq : pyStrip lineBrace = lineBrace := by decide
      have hb2 : parseBrace (pyStrip lineBrace) = some (jobj []) := by decide
      have hb3 : cliEventOf fmtNone (jobj []) = some evBrace := rfl
      rw [List.replicate_succ,
        loadCliAux_cons_good fmtNone parseBrace lineBrace _ events raw (jobj []) evBrace hb1 hb2 hb3]
      by_cases hc : maxEvents ≤ (events ++ [evBrace]).length
      · rw [if_pos hc]
        refine ⟨_, rfl, ?_, ?_⟩ <;> simp at hc ⊢ <;> omega
      · rw [if_neg hc]
        simp at hc
        obtain ⟨r, hr, h1, h2⟩ := ih (events ++ [evBrace]) (raw + 1) (by simp; omega)
        refine ⟨r, hr, ?_, ?_⟩
        · rw [h1]
          simp
          omega
        · rw [h2]
          simp
          omega

/-- C5 counterexample: an artifact of 4001 parseable record lines loads
with `raw_line_count = 4000`, not 4001 — the loop's `break` at the event
cap stops the count, so lines past the cap are not counted. -/
theorem c5_counterexample :
    (loadCliEvents fmtNone parseBrace (List.replicate 4001 lineBrace)).map
      (fun r => r.raw_line_count) = some 4000 ∧
    (List.replicate 4001 lineBrace).length = 4001 := by
  obtain ⟨r, hr, h1, h2⟩ := loadCliAux_braces 4001 [] 0 (by simp [maxEvents])
  constructor
  · rw [loadCliEvents, hr]
    show some r.raw_line_count = some 4000
    have hval : r.raw_line_count = 4000 := by
      rw [h1]
      simp only [maxEvents, List.length_nil]
      omega
    rw [hval]
  · rw [List.length_replicate]

theorem roleFromAlias_mem (s r : String) (h : roleFromAlias s = some r) :
    r ∈ validRoles := by
  unfold roleFromAlias at h
  split_ifs at h <;> simp_all [validRoles]

theorem roleFromType_mem (s r : String) (h : roleFromType s = some r) :
    r ∈ validRoles := by
  unfold roleFromType at h
  split_ifs at h <;> simp_all [validRoles]

theorem firstKeyRole_mem (fields : JsonFields) :
    ∀ (keys : List String) (r : String), firstKeyRole fields keys = some r →
      r ∈ validRoles := by
  intro keys
  induction keys with
  | nil => intro r h; simp [firstKeyRole] at h
  | cons k rest ih =>
      intro r h
      simp only [firstKeyRole] at h
      split at h
      · split at h
        · rename_i hr'
          rw [Option.some.injEq] at h
          subst h
          exact roleFromAlias_mem _ _ hr'
        · exact ih r h
      · exact ih r h

theorem guessRoleFromMsg_mem (fields : JsonFields) (r : String)
    (h : guessRoleFromMsg fields = some r) : r ∈ validRoles := by
  unfold guessRoleFromMsg at h
  repeat' split at h
  all_goals first
    | exact roleFromAlias_mem _ _ h
    | simp at h

theorem guessRoleFromType_mem (fields : JsonFields) :
    guessRoleFromType fields ∈ validRoles := by
  unfold guessRoleFromType
  rcases hg : Json.getOpt fields "type" with _ | tv
  · simp [validRoles]
  · rcases tv with _ | b | n | t | el | fl
    · simp [validRoles]
    · simp [validRoles]
    · simp [validRoles]
    · show (roleFromType (pyLower t)).getD "system" ∈ validRoles
      rcases hh : roleFromType (pyLower t) with _ | r
      · simp [validRoles]
      · simp only [Option.getD_some]
        exact roleFromType_mem _ _ hh
    · simp [validRoles]
    · simp [validRoles]

theorem guessRole_mem (j : Json) : guessRole j ∈ validRoles := by
  unfold guessRole
  split
  · rename_i fields
    split
    · rename_i r hr
      exact guessRoleFromMsg_mem fields r hr
    · split
      · rename_i r hr
        exact firstKeyRole_mem _ _ _ hr
      · exact guessRoleFromType_mem _
  · simp [validRoles]

theorem cliEventOfObj_role_mem (fmt : ℚ → Option String) (fields : JsonFields) :
    (cliEventOfObj fmt fields).role ∈ validRoles := by
  simp only [cliEventOfObj]
  split
  · split_ifs <;> first
      | exact guessRole_mem (Json.obj fields)
      | simp [validRoles]
  · exact guessRole_mem (Json.obj fields)

theorem cliEventOfObj_kind_mem (fmt : ℚ → Option String) (fields : JsonFields) :
    (cliEventOfObj fmt fields).kind ∈ cliKinds := by
  simp only [cliEventOfObj]
  split
  · split_ifs <;> simp [cliKinds]
  · simp [cliKinds]

/-- A successful `cliEventOf` came from a dict record. -/
theorem cliEventOf_some (fmt : ℚ → Option String) (obj : Json) (ev : Event)
    (h : cliEventOf fmt obj = some ev) :
    ∃ fields, obj = Json.obj fields ∧ ev = cliEventOfObj fmt fields := by
  cases obj <;> simp [cliEventOf] at h
  case obj fields => exact ⟨fields, rfl, h.symm⟩

/-- Every event the CLI loader accumulates is role/kind well-formed. -/
theorem loadCliAux_wf (fmt : ℚ → Option String) (parse : String → Option Json) :
    ∀ (lines : List String) (events : List Event) (raw : Nat) (r : LoadResult),
      (∀ e ∈ events, e.role ∈ validRoles ∧ e.kind ∈ cliKinds) →
      loadCliAux fmt parse lines events raw = some r →
      ∀ e ∈ r.events, e.role ∈ validRoles ∧ e.kind ∈ cliKinds := by
  intro lines
  induction lines with
  | nil =>
      intro events raw r hwf h
      simp only [loadCliAux, Option.some.injEq] at h
      subst h
      exact hwf
  | cons l rest ih =>
      intro events raw r hwf h
      by_cases h1 : pyStrip l = ""
      · rw [loadCliAux_cons_blank fmt parse l rest events raw h1] at h
        exact ih _ _ _ hwf h
      · rcases hp : parse (pyStrip l) with _ | obj
        · rw [loadCliAux_cons_badparse fmt parse l rest events raw h1 hp] at h
          exact ih _ _ _ hwf h
        · rcases hev : cliEventOf fmt obj with _ | ev
          · rw [loadCliAux_cons_nondict fmt parse l rest events raw obj h1 hp hev] at h
            simp at h
          · rw [loadCliAux_cons_good fmt parse l rest events raw obj ev h1 hp hev] at h
            have hev' : ∀ e ∈ events ++ [ev], e.role ∈ validRoles ∧ e.kind ∈ cliKinds := by
              intro e he
              rcases List.mem_append.1 he with he | he
              · exact hwf e he
              · have heq : e = ev := by simpa using he
                obtain ⟨fields, -, hev2⟩ := cliEventOf_some fmt obj ev hev
                rw [heq, hev2]
                exact ⟨cliEventOfObj_role_mem fmt fields, cliEventOfObj_kind_mem fmt fields⟩
            split at h
            · rw [Option.some.injEq] at h
              subst h
              exact hev'
            · exact ih _ _ _ hev' h

/-- Every event of the desktop loader is role/kind well-formed. -/
theorem loadDesktopEvents_wf (fmt : ℚ → Option String) (d8 d16 : List Nat → String)
    (parse : String → Option Json) (raw : List Nat) :
    ∀ e ∈ (loadDesktopEvents fmt d8 d16 parse raw).events,
      e.role ∈ validRoles ∧ (e.kind = "snippet" ∨ e.kind = "notice") := by
  intro e he
  simp only [loadDesktopEvents] at he
  have he' := List.mem_of_mem_take he
  rcases List.mem_cons.1 he' with he0 | hrest
  · subst he0
    exact ⟨by simp [validRoles], Or.inr rfl⟩
  · split at hrest
    · obtain ⟨s, -, hs⟩ := List.mem_map.1 hrest
      rw [← hs]
      exact ⟨by simp [validRoles], Or.inl rfl⟩
    · obtain ⟨obj, -, hobj⟩ := List.mem_filterMap.1 hrest
      split at hobj
      · simp at hobj
      · rw [Option.some.injEq] at hobj
        rw [← hobj]
        exact ⟨guessRole_mem obj, Or.inl rfl⟩

/-- Skipping behavior of the CLI loader: dropping the lines that are blank
after stripping or whose parse fails leaves the produced event sequence
unchanged (for any starting raw counters). -/
theorem loadCliAux_skip (fmt : ℚ → Option String) (parse : String → Option Json) :
    ∀ (lines : List String) (events : List Event) (raw₁ raw₂ : Nat),
      (loadCliAux fmt parse lines events raw₁).map (fun r => r.events) =
      (loadCliAux fmt parse
        (lines.filter fun l => (pyStrip l != "") && (parse (pyStrip l)).isSome)
        events raw₂).map (fun r => r.events) := by
  intro lines
  induction lines with
  | nil => intro events raw₁ raw₂; rfl
  | cons l rest ih =>
      intro events raw₁ raw₂
      by_cases h1 : pyStrip l = ""
      · rw [loadCliAux_cons_blank fmt parse l rest events raw₁ h1,
          List.filter_cons_of_neg (by simp [h1])]
        exact ih events (raw₁ + 1) raw₂
      · rcases hp : parse (pyStrip l) with _ | obj
        · rw [loadCliAux_cons_badparse fmt parse l rest events raw₁ h1 hp,
            List.filter_cons_of_neg (by simp [h1, hp])]
          exact ih events (raw₁ + 1) raw₂
        · rw [List.filter_cons_of_pos (by simp [h1, hp])]
          rcases hev : cliEventOf fmt obj with _ | ev
          · rw [loadCliAux_cons_nondict fmt parse l rest events raw₁ obj h1 hp hev,
              loadCliAux_cons_nondict fmt parse l _ events raw₂ obj h1 hp hev]
          · rw [loadCliAux_cons_good fmt parse l rest events raw₁ obj ev h1 hp hev,
              loadCliAux_cons_good fmt parse l _ events raw₂ obj ev h1 hp hev]
            by_cases hc : maxEvents ≤ (events ++ [ev]).length
            · rw [if_pos hc, if_pos hc]
              rfl
            · rw [if_neg hc, if_neg hc]
              exact ih _ (raw₁ + 1) (raw₂ + 1)

/-- C1 (code bug): the claim's skip-and-continue behavior does hold for
lines that are blank or fail JSON parsing, and every event either loader
returns is role/kind well-formed — but a line holding valid non-object
JSON such as `3` parses successfully and then `obj.get("type", "")`
raises an uncaught `AttributeError` (modelled as `none`), so
`load_cli_events` does not return a result on that artifact. -/
theorem c1_robustness :
    loadCliEvents fmtNone parse3 ["3"] = none ∧
    (∀ (fmt : ℚ → Option String) (parse : String → Option Json) (lines : List String),
      (loadCliEvents fmt parse lines).map (fun r => r.events) =
      (loadCliEvents fmt parse
        (lines.filter fun l => (pyStrip l != "") && (parse (pyStrip l)).isSome)).map
        (fun r => r.events)) ∧
    (∀ (fmt : ℚ → Option String) (parse : String → Option Json)
        (lines : List String) (r : LoadResult),
      loadCliEvents fmt parse lines = some r →
      ∀ e ∈ r.events, e.role ∈ validRoles ∧ e.kind ∈ cliKinds) ∧
    (∀ (fmt : ℚ → Option String) (d8 d16 : List Nat → String)
        (parse : String → Option Json) (raw : List Nat),
      ∀ e ∈ (loadDesktopEvents fmt d8 d16 parse raw).events,
        e.role ∈ validRoles ∧ (e.kind = "snippet" ∨ e.kind = "notice")) := by
  refine ⟨by decide, ?_, ?_, ?_⟩
  · intro fmt parse lines
    exact loadCliAux_skip fmt parse lines [] 0 0
  · intro fmt parse lines r h
    exact loadCliAux_wf fmt parse lines [] 0 r (by simp) h
  · exact loadDesktopEvents_wf

/-- Witness for `c1_robustness` at a concrete one-line artifact. -/
theorem c1_robustness_witness :
    evBrace.role ∈ validRoles ∧ evBrace.kind ∈ cliKinds :=
  c1_robustness.2.2.1 fmtNone parseBrace [lineBrace] ⟨[evBrace], 1⟩ (by decide)
    evBrace (by decide)

/-- The inner loop of `_extract_json_objects_from_bytes` preserves the
"every output signature is recorded and all output signatures are
pairwise distinct" invariant, and only grows `seen`. -/
theorem objsFromBytesInner_inv (limit : Nat) :
    ∀ (objs : List Json) (seen : List String) (out : List Json),
      (∀ o ∈ out, dumpSig o ∈ seen) →
      List.Pairwise (fun a b => dumpSig a ≠ dumpSig b) out →
      (∀ o ∈ (objsFromBytesInner limit objs seen out).2.1,
        dumpSig o ∈ (objsFromBytesInner limit objs seen out).1) ∧
      List.Pairwise (fun a b => dumpSig a ≠ dumpSig b)
        (objsFromBytesInner limit objs seen out).2.1 := by
  intro objs
  induction objs with
  | nil =>
      intro seen out h1 h2
      exact ⟨h1, h2⟩
  | cons obj rest ih =>
      intro seen out h1 h2
      simp only [objsFromBytesInner]
      split
      · exact ih seen out h1 h2
      · rename_i hnotin
        have h1' : ∀ o ∈ out ++ [obj], dumpSig o ∈ seen ++ [pyTrunc (Json.dumps obj) 400] := by
          intro o ho
          rcases List.mem_append.1 ho with ho | ho
          · exact List.mem_append.2 (Or.inl (h1 o ho))
          · have : o = obj := by simpa using ho
            subst this
            simp [dumpSig]
        have h2' : List.Pairwise (fun a b => dumpSig a ≠ dumpSig b) (out ++ [obj]) := by
          rw [List.pairwise_append]
          refine ⟨h2, by simp, ?_⟩
          intro a ha b hb
          have hb' : b = obj := by simpa using hb
          subst hb'
          intro hcontra
          exact hnotin (by rw [← dumpSig, ← hcontra]; exact h1 a ha)
        split
        · exact ⟨h1', h2'⟩
        · exact ih _ _ h1' h2'

/-- The outer loop of `_extract_json_objects_from_bytes` preserves the
invariant across decodings. -/
theorem objsFromBytesOuter_inv (parse : String → Option Json) (limit : Nat) :
    ∀ (texts : List String) (seen : List String) (out : List Json),
      (∀ o ∈ out, dumpSig o ∈ seen) →
      List.Pairwise (fun a b => dumpSig a ≠ dumpSig b) out →
      List.Pairwise (fun a b => dumpSig a ≠ dumpSig b)
        (objsFromBytesOuter parse limit texts seen out) := by
  intro texts
  induction texts with
  | nil => intro seen out h1 h2; exact h2
  | cons text rest ih =>
      intro seen out h1 h2
      simp only [objsFromBytesOuter]
      split
      · exact ih seen out h1 h2
      · have hinv := objsFromBytesInner_inv limit
          (extractJsonObjectsFromText parse text limit) seen out h1 h2
        split
        · exact hinv.2
        · exact ih _ _ hinv.1 hinv.2

/-- C4 (amended): the recovered-object list is deduplicated by the first
400 characters of the canonical serialization: no two returned objects
share that signature, and in particular the list never contains two
identical objects.  (The size can undercount distinct objects: two
distinct objects agreeing on their first 400 serialized characters — or
whose raw candidates agree on their first 400 characters — are
conflated, as the counterexample shows.) -/
theorem c4_dedup (d8 d16 : List Nat → String) (parse : String → Option Json)
    (raw : List Nat) (limit : Nat) :
    List.Pairwise (fun a b => dumpSig a ≠ dumpSig b)
      (extractJsonObjectsFromBytes d8 d16 parse raw limit) ∧
    (extractJsonObjectsFromBytes d8 d16 parse raw limit).Nodup := by
  have h := objsFromBytesOuter_inv parse limit [d8 raw, d16 raw] [] []
    (by simp) (by simp)
  refine ⟨h, ?_⟩
  exact h.imp fun hne heq => hne (by rw [heq])

/-- C4 counterexample: the byte buffer holds two distinct objects, both
individually recoverable (they are exactly the two balanced candidates
and both parse), yet the recovered list has size 1 — the 400-character
dedup prefix conflates them, so the size does not equal the number of
distinct underlying objects. -/
theorem c4_counterexample :
    extractJsonObjectsFromBytes d8C4 decodeEmpty parseC4 [0] 120 = [objX] ∧
    extractJsonCandidatesBalanced textC4 720 = [chunkX, chunkY] ∧
    parseC4 chunkX = some objX ∧
    parseC4 chunkY = some objY ∧
    objX ≠ objY := by
  refine ⟨by decide, by decide, by decide, by decide, by decide⟩

/-! ## C8: the search-text budget -/
theorem intercalate_go_append (s x : String) :
    ∀ (as : List String) (acc : String),
      String.intercalate.go acc s (as ++ [x]) =
        String.intercalate.go acc s as ++ s ++ x := by
  intro as
  induction as with
  | nil => intro acc; rfl
  | cons a as ih => intro acc; exact ih (acc ++ s ++ a)

theorem intercalate_append_singleton (s x : String) (l : List String) :
    String.intercalate s (l ++ [x]) =
      if l = [] then x else String.intercalate s l ++ s ++ x := by
  cases l with
  | nil => rfl
  | cons a as =>
      show String.intercalate.go a s (as ++ [x]) = _
      rw [intercalate_go_append]
      simp [String.intercalate]

theorem joined_append_length (chunks : List String) (c : String) :
    (" ".intercalate (chunks ++ [c])).length ≤
      (" ".intercalate chunks).length + 1 + c.length := by
  rw [intercalate_append_singleton]
  split
  · simp
  · rw [String.length_append, String.length_append]
    have hs : (" " : String).length = 1 := rfl
    omega

theorem cliMetaUpdate_chunks (fmt : ℚ → Option String) (obj : Json)
    (st : CliSumSt) : (cliMetaUpdate fmt obj st).chunks = st.chunks := by
  simp only [cliMetaUpdate]
  repeat' split
  all_goals rfl

theorem cliMetaUpdate_first (fmt : ℚ → Option String) (obj : Json)
    (st : CliSumSt) :
    (cliMetaUpdate fmt obj st).first_user_text = st.first_user_text := by
  simp only [cliMetaUpdate]
  repeat' split
  all_goals rfl

/-- One text update keeps the joined search chunks within
`search_limit + 320` characters: a chunk (itself at most 320 characters)
is only appended while the running length is strictly below the
budget. -/
theorem cliTextUpdate_chunks_le (obj : Json) (st : CliSumSt)
    (h : (" ".intercalate st.chunks).length ≤ searchLimit + 320) :
    (" ".intercalate (cliTextUpdate obj st).chunks).length ≤ searchLimit + 320 := by
  simp only [cliTextUpdate]
  split
  · exact h
  · split
    · split
      · rename_i hlt
        refine le_trans (joined_append_length _ _) ?_
        have := pyTrunc_length_le (replaceNl (pyStrip
          (" ".intercalate (extractTextRecursive obj)))) 320
        simp only [searchLimit] at hlt ⊢
        omega
      · exact h
    · split
      · rename_i hlt
        refine le_trans (joined_append_length _ _) ?_
        have := pyTrunc_length_le (replaceNl (pyStrip
          (" ".intercalate (extractTextRecursive obj)))) 320
        simp only [searchLimit] at hlt ⊢
        omega
      · exact h

theorem summarizeCliLoop_chunks_le (fmt : ℚ → Option String)
    (parse : String → Option Json) :
    ∀ (lines : List String) (st : CliSumSt),
      (" ".intercalate st.chunks).length ≤ searchLimit + 320 →
      (" ".intercalate (summarizeCliLoop fmt parse lines st).chunks).length ≤
        searchLimit + 320 := by
  intro lines
  induction lines with
  | nil => intro st h; exact h
  | cons l rest ih =>
      intro st h
      simp only [summarizeCliLoop]
      split
      · exact ih st h
      · split
        · exact ih st h
        · rename_i obj hobj
          have hst' : (" ".intercalate (summarizeCliStep fmt obj st).chunks).length ≤
              searchLimit + 320 := by
            unfold summarizeCliStep
            apply cliTextUpdate_chunks_le
            rw [cliMetaUpdate_chunks]
            exact h
          split
          · exact hst'
          · exact ih _ hst'

theorem intercalate_go_length_le (s : String) (b : Nat) :
    ∀ (as : List String) (acc : String),
      (∀ t ∈ as, t.length ≤ b) →
      (String.intercalate.go acc s as).length ≤
        acc.length + as.length * (b + s.length) := by
  intro as
  induction as with
  | nil => intro acc _; simp [String.intercalate.go]
  | cons a as ih =>
      intro acc hb
      show (String.intercalate.go (acc ++ s ++ a) s as).length ≤ _
      refine le_trans (ih (acc ++ s ++ a) fun t ht => hb t (by simp [ht])) ?_
      rw [String.length_append, String.length_append]
      have ha : a.length ≤ b := hb a (by simp)
      rw [List.length_cons, Nat.succ_mul]
      omega

/-- Joined length bound: `n` strings of length at most `b`, joined by a
separator, take at most `n * (b + sep)` characters. -/
theorem intercalate_length_le (s : String) (b : Nat) (l : List String)
    (h : ∀ t ∈ l, t.length ≤ b) :
    (String.intercalate s l).length ≤ l.length * (b + s.length) := by
  cases l with
  | nil => simp [String.intercalate]
  | cons a as =>
      show (String.intercalate.go a s as).length ≤ _
      refine le_trans (intercalate_go_length_le s b as a
        fun t ht => h t (by simp [ht])) ?_
      have ha : a.length ≤ b := h a (by simp)
      rw [List.length_cons, Nat.succ_mul]
      omega

theorem deskMetaUpdate_texts (fmt : ℚ → Option String) (obj : Json)
    (st : DeskSumSt) : (deskMetaUpdate fmt obj st).texts = st.texts := by
  simp only [deskMetaUpdate]
  split <;> rfl

theorem deskMetaUpdate_first (fmt : ℚ → Option String) (obj : Json)
    (st : DeskSumSt) :
    (deskMetaUpdate fmt obj st).first_user_text = st.first_user_text := by
  simp only [deskMetaUpdate]
  split <;> rfl

/-- One desktop text update appends exactly the record's `deskTextOf`
entry to `texts`. -/
theorem deskTextUpdate_texts (obj : Json) (st : DeskSumSt) :
    (deskTextUpdate obj st).texts = st.texts ++ (deskTextOf obj).toList := by
  simp only [deskTextUpdate, deskTextOf]
  split
  · simp
  · split <;> simp

/-- The desktop loop's final `texts` are the records' truncated texts, in
order. -/
theorem summarizeDesktopLoop_texts_eq (fmt : ℚ → Option String) :
    ∀ (objs : List Json) (st : DeskSumSt),
      (summarizeDesktopLoop fmt objs st).texts =
        st.texts ++ objs.filterMap deskTextOf := by
  intro objs
  induction objs with
  | nil => intro st; simp [summarizeDesktopLoop]
  | cons obj rest ih =>
      intro st
      simp only [summarizeDesktopLoop]
      rw [ih, deskTextUpdate_texts, deskMetaUpdate_texts, List.filterMap_cons]
      rcases deskTextOf obj with _ | t <;> simp

/-- The desktop summary loop only appends 320-truncated texts. -/
theorem summarizeDesktopLoop_texts_le (fmt : ℚ → Option String) :
    ∀ (objs : List Json) (st : DeskSumSt),
      (∀ t ∈ st.texts, t.length ≤ 320) →
      ∀ t ∈ (summarizeDesktopLoop fmt objs st).texts, t.length ≤ 320 := by
  intro objs st h t ht
  rw [summarizeDesktopLoop_texts_eq] at ht
  rcases List.mem_append.1 ht with hm | hm
  · exact h t hm
  · obtain ⟨obj, -, hobj⟩ := List.mem_filterMap.1 hm
    simp only [deskTextOf] at hobj
    split at hobj
    · rw [Option.some.injEq] at hobj
      rw [← hobj]
      exact pyTrunc_length_le _ _
    · simp at hobj

theorem length_dropWhile_le (p : Char → Bool) (l : List Char) :
    (l.dropWhile p).length ≤ l.length := by
  induction l with
  | nil => simp
  | cons a l ih =>
      rw [List.dropWhile]
      split
      · exact le_trans ih (by simp)
      · simp

theorem pyStrip_length_le (s : String) : (pyStrip s).length ≤ s.length := by
  show (((s.data.dropWhile pyIsSpace).reverse.dropWhile pyIsSpace).reverse).length ≤
    s.data.length
  rw [List.length_reverse]
  refine le_trans (length_dropWhile_le pyIsSpace _) ?_
  rw [List.length_reverse]
  exact length_dropWhile_le pyIsSpace _

/-- Every `{24,300}` segment of a readable run has at most 300
characters. -/
theorem regexSegments_le :
    ∀ (n : Nat) (run : List Char), run.length ≤ n →
      ∀ seg ∈ regexSegments run, seg.length ≤ 300 := by
  intro n
  induction n with
  | zero =>
      intro run h seg hseg
      unfold regexSegments at hseg
      rw [dif_pos (by omega)] at hseg
      simp at hseg
  | succ n ih =>
      intro run h seg hseg
      unfold regexSegments at hseg
      split at hseg
      · simp at hseg
      · rename_i hlen
        rcases List.mem_cons.1 hseg with hs | hs
        · rw [hs]
          exact List.length_take_le 300 run
        · refine ih (run.drop 300) ?_ seg hs
          rw [List.length_drop]
          omega

/-- Every readable-run match has at most 300 characters. -/
theorem readableMatches_le (text : String) :
    ∀ m ∈ readableMatches text, m.length ≤ 300 := by
  intro m hm
  simp only [readableMatches] at hm
  obtain ⟨seg, hseg, hm⟩ := List.mem_map.1 hm
  obtain ⟨segs, hsegs, hseg'⟩ := List.mem_flatten.1 hseg
  obtain ⟨run, -, hrun⟩ := List.mem_map.1 hsegs
  rw [← hm]
  show seg.length ≤ 300
  refine regexSegments_le run.length run le_rfl seg ?_
  rw [hrun]
  exact hseg'

/-- The snippet collector only outputs stripped matches, so all snippets
stay within 300 characters; it also never grows past its limit. -/
theorem snippetsInner_le (limit : Nat) :
    ∀ (ms seen snips : List String),
      (∀ s ∈ snips, s.length ≤ 300) →
      (∀ m ∈ ms, m.length ≤ 300) →
      snips.length < limit →
      (∀ s ∈ (snippetsInner limit ms seen snips).2.1, s.length ≤ 300) ∧
      (snippetsInner limit ms seen snips).2.1.length ≤ limit ∧
      ((snippetsInner limit ms seen snips).2.2 = false →
        (snippetsInner limit ms seen snips).2.1.length < limit) := by
  intro ms
  induction ms with
  | nil =>
      intro seen snips h1 _ hlt
      exact ⟨h1, le_of_lt hlt, fun _ => hlt⟩
  | cons m rest ih =>
      intro seen snips h1 h2 hlt
      simp only [snippetsInner]
      split
      · exact ih seen snips h1 (fun x hx => h2 x (by simp [hx])) hlt
      · split
        · exact ih seen snips h1 (fun x hx => h2 x (by simp [hx])) hlt
        · split
          · exact ih _ snips h1 (fun x hx => h2 x (by simp [hx])) hlt
          · have hsnew : ∀ s ∈ snips ++ [pyStrip m], s.length ≤ 300 := by
              intro s hs
              rcases List.mem_append.1 hs with hs | hs
              · exact h1 s hs
              · have : s = pyStrip m := by simpa using hs
                rw [this]
                exact le_trans (pyStrip_length_le m) (h2 m (by simp))
            split
            · refine ⟨hsnew, ?_, ?_⟩
              · simp only [List.length_append, List.length_singleton]
                omega
              · intro hfull
                simp at hfull
            · rename_i hnf
              refine ih _ _ hsnew (fun x hx => h2 x (by simp [hx])) ?_
              simp only [List.length_append, List.length_singleton] at hnf ⊢
              omega

theorem snippetsOuter_le (limit : Nat) :
    ∀ (texts seen snips : List String),
      (∀ s ∈ snips, s.length ≤ 300) →
      (∀ t ∈ texts, ∀ m ∈ readableMatches t, m.length ≤ 300) →
      snips.length < limit →
      (∀ s ∈ snippetsOuter limit texts seen snips, s.length ≤ 300) ∧
      (snippetsOuter limit texts seen snips).length ≤ limit := by
  intro texts
  induction texts with
  | nil =>
      intro seen snips h1 _ hlt
      exact ⟨h1, le_of_lt hlt⟩
  | cons text rest ih =>
      intro seen snips h1 h2 hlt
      simp only [snippetsOuter]
      split
      · exact ih seen snips h1 (fun t ht => h2 t (by simp [ht])) hlt
      · have hin := snippetsInner_le limit (readableMatches text) seen snips h1
          (h2 text (by simp)) hlt
        split
        · exact ⟨hin.1, hin.2.1⟩
        · rename_i hnf
          simp only [Bool.not_eq_true] at hnf
          exact ih _ _ hin.1 (fun t ht => h2 t (by simp [ht])) (hin.2.2 hnf)

/-- All readable snippets are at most 300 characters, and at most `limit`
of them are returned. -/
theorem extractReadableSnippets_le (d8 d16 : List Nat → String) (raw : List Nat)
    (limit : Nat) (hpos : 0 < limit) :
    (∀ s ∈ extractReadableSnippets d8 d16 raw limit, s.length ≤ 300) ∧
    (extractReadableSnippets d8 d16 raw limit).length ≤ limit := by
  exact snippetsOuter_le limit [d8 raw, d16 raw] [] [] (by simp)
    (fun t _ => readableMatches_le t) (by simpa using hpos)

/-- C8 (amended): `search_text` is bounded, but not by the 2500-character
budget itself.  On the CLI path a chunk (≤ 320 characters plus a joining
space) is appended only while the running length is < 2500, so the result
is ≤ 2820 characters.  On the desktop path there is no running budget at
all: the bound is structural — at most 20 chunks of ≤ 320 characters
(6420 with separators), or at most 10 snippets of ≤ 300 characters. -/
theorem c8_search_text_bounds (meta : ArtifactMeta) (fmt : ℚ → Option String)
    (parse : String → Option Json) (lines : List String)
    (d8 d16 : List Nat → String) (rawB : List Nat) :
    (summarizeCliSession meta fmt parse lines).search_text.length ≤ searchLimit + 320 ∧
    (summarizeDesktopBlob meta fmt d8 d16 parse rawB).search_text.length ≤ 6420 := by
  constructor
  · show (" ".intercalate (summarizeCliLoop fmt parse lines ⟨"", "", "", "", []⟩).chunks).length ≤ _
    exact summarizeCliLoop_chunks_le fmt parse lines _ (by simp [String.intercalate])
  · simp only [summarizeDesktopBlob]
    split
    · show (" ".intercalate ((summarizeDesktopLoop fmt
        (extractJsonObjectsFromBytes d8 d16 parse rawB 40) ⟨"", "", []⟩).texts.take 20)).length ≤ 6420
      have hs : (" " : String).length = 1 := rfl
      refine le_trans (intercalate_length_le " " 320 _ ?_) ?_
      · intro t ht
        exact summarizeDesktopLoop_texts_le fmt
          (extractJsonObjectsFromBytes d8 d16 parse rawB 40) ⟨"", "", []⟩
          (by simp) t (List.mem_of_mem_take ht)
      · rw [hs]
        refine le_trans (Nat.mul_le_mul_right (320 + 1) (List.length_take_le 20 _)) ?_
        norm_num
    · show (" ".intercalate (extractReadableSnippets d8 d16 rawB 10)).length ≤ 6420
      have hsn := extractReadableSnippets_le d8 d16 rawB 10 (by norm_num)
      have hs : (" " : String).length = 1 := rfl
      refine le_trans (intercalate_length_le " " 300 _ hsn.1) ?_
      rw [hs]
      refine le_trans (Nat.mul_le_mul_right (300 + 1) hsn.2) ?_
      norm_num

/-- C8 counterexample: an artifact of eight 320-character records produces
a `search_text` of 2567 characters — the accumulation guard only stops
once the running length has already passed 2500, so the result exceeds
the claimed 2500-character bound. -/
theorem c8_counterexample :
    (summarizeCliSession metaC8 fmtNone parse320
      (List.replicate 8 line320)).search_text.length = 2567 ∧
    searchLimit < 2567 := by
  constructor
  · decide
  · decide

theorem cliTextUpdate_first_ne (obj : Json) (st : CliSumSt)
    (h : st.first_user_text ≠ "") :
    (cliTextUpdate obj st).first_user_text = st.first_user_text := by
  simp only [cliTextUpdate]
  split
  · rfl
  · have hneg : ¬(guessRole obj = "user" ∧ st.first_user_text = "") := fun hc => h hc.2
    rw [if_neg hneg]
    split <;> rfl

theorem cliTextUpdate_first_eq (obj : Json) (st : CliSumSt)
    (h : st.first_user_text = "") :
    (cliTextUpdate obj st).first_user_text = cliRecFirst obj := by
  simp only [cliTextUpdate, cliRecFirst]
  split
  · rename_i hemp
    have hneg : ¬(guessRole obj = "user" ∧ ¬(extractTextRecursive obj).isEmpty = true) :=
      fun hc => hc.2 hemp
    rw [h, if_neg hneg]
  · rename_i hemp
    by_cases hrole : guessRole obj = "user"
    · have hpos1 : guessRole obj = "user" ∧ st.first_user_text = "" := ⟨hrole, h⟩
      have hpos2 : guessRole obj = "user" ∧ ¬(extractTextRecursive obj).isEmpty = true :=
        ⟨hrole, hemp⟩
      rw [if_pos hpos1, if_pos hpos2]
      split <;> rfl
    · have hneg1 : ¬(guessRole obj = "user" ∧ st.first_user_text = "") :=
        fun hc => hrole hc.1
      have hneg2 : ¬(guessRole obj = "user" ∧ ¬(extractTextRecursive obj).isEmpty = true) :=
        fun hc => hrole hc.1
      rw [if_neg hneg1, if_neg hneg2]
      split <;> exact h

theorem summarizeCliStep_first_ne (fmt : ℚ → Option String) (obj : Json)
    (st : CliSumSt) (h : st.first_user_text ≠ "") :
    (summarizeCliStep fmt obj st).first_user_text = st.first_user_text := by
  unfold summarizeCliStep
  rw [cliTextUpdate_first_ne _ _ (by rw [cliMetaUpdate_first]; exact h),
    cliMetaUpdate_first]

theorem summarizeCliStep_first_eq (fmt : ℚ → Option String) (obj : Json)
    (st : CliSumSt) (h : st.first_user_text = "") :
    (summarizeCliStep fmt obj st).first_user_text = cliRecFirst obj := by
  unfold summarizeCliStep
  rw [cliTextUpdate_first_eq _ _ (by rw [cliMetaUpdate_first]; exact h)]

theorem summarizeCliLoop_first_ne (fmt : ℚ → Option String)
    (parse : String → Option Json) :
    ∀ (lines : List String) (st : CliSumSt), st.first_user_text ≠ "" →
      (summarizeCliLoop fmt parse lines st).first_user_text = st.first_user_text := by
  intro lines
  induction lines with
  | nil => intro st h; rfl
  | cons l rest ih =>
      intro st h
      simp only [summarizeCliLoop]
      split
      · exact ih st h
      · split
        · exact ih st h
        · rename_i obj hobj
          have hst' := summarizeCliStep_first_ne fmt obj st h
          split
          · exact hst'
          · rw [ih _ (by rw [hst']; exact h), hst']

/-- Spec-side step: a line contributing nothing leaves the reference
value untouched. -/
theorem cliFirstUserSpec_cons_skip (parse : String → Option Json)
    (l : String) (rest : List String)
    (h : ¬probablyTextualJsonLine l ∨ parse l = none ∨
      ∃ obj, parse l = some obj ∧ cliRecFirst obj = "") :
    cliFirstUserSpec parse (l :: rest) = cliFirstUserSpec parse rest := by
  simp only [cliFirstUserSpec, List.filterMap_cons]
  rcases h with h | h | ⟨obj, hobj, hcr⟩
  · rw [if_neg (by simpa using h)]
  · rw [h]
    split
    · rfl
    · rename_i heq
      split at heq <;> simp at heq
  · rw [hobj]
    split
    · rfl
    · rename_i heq
      split at heq <;> simp_all

theorem cliFirstUserSpec_cons_hit (parse : String → Option Json)
    (l : String) (rest : List String) (obj : Json)
    (h1 : probablyTextualJsonLine l) (h2 : parse l = some obj)
    (h3 : cliRecFirst obj ≠ "") :
    cliFirstUserSpec parse (l :: rest) = cliRecFirst obj := by
  simp only [cliFirstUserSpec, List.filterMap_cons]
  rw [if_pos h1, h2]
  simp [h3]

theorem summarizeCliLoop_first_eq (fmt : ℚ → Option String)
    (parse : String → Option Json) :
    ∀ (lines : List String) (st : CliSumSt), st.first_user_text = "" →
      (summarizeCliLoop fmt parse lines st).first_user_text =
        cliFirstUserSpec parse lines := by
  intro lines
  induction lines with
  | nil => intro st h; exact h
  | cons l rest ih =>
      intro st h
      simp only [summarizeCliLoop]
      split
      · rename_i hskip
        rw [ih st h, cliFirstUserSpec_cons_skip parse l rest (Or.inl (by simpa using hskip))]
      · rename_i hprob
        split
        · rename_i hp
          rw [ih st h, cliFirstUserSpec_cons_skip parse l rest (Or.inr (Or.inl hp))]
        · rename_i obj hobj
          have hprob' : probablyTextualJsonLine l := by
            by_contra hcon
            exact hprob (by simpa using hcon)
          have hst' := summarizeCliStep_first_eq fmt obj st h
          by_cases hcr : cliRecFirst obj = ""
          · rw [cliFirstUserSpec_cons_skip parse l rest (Or.inr (Or.inr ⟨obj, hobj, hcr⟩))]
            split
            · rename_i hbrk
              exact absurd (by rw [hst', hcr]) hbrk.1.elim
            · rw [ih _ (by rw [hst', hcr])]
          · rw [cliFirstUserSpec_cons_hit parse l rest obj hprob' hobj hcr]
            split
            · exact hst'
            · rw [summarizeCliLoop_first_ne fmt parse rest _ (by rw [hst']; exact hcr), hst']

theorem deskTextUpdate_first_ne (obj : Json) (st : DeskSumSt)
    (h : st.first_user_text ≠ "") :
    (deskTextUpdate obj st).first_user_text = st.first_user_text := by
  simp only [deskTextUpdate]
  split
  · rfl
  · have hneg : ¬(guessRole obj = "user" ∧ st.first_user_text = "") := fun hc => h hc.2
    rw [if_neg hneg]

theorem deskTextUpdate_first_eq (obj : Json) (st : DeskSumSt)
    (h : st.first_user_text = "") :
    (deskTextUpdate obj st).first_user_text = deskRecFirst obj := by
  simp only [deskTextUpdate, deskRecFirst]
  split
  · rename_i hemp
    have hneg : ¬(guessRole obj = "user" ∧ ¬(extractTextRecursive obj).isEmpty = true) :=
      fun hc => hc.2 hemp
    rw [h, if_neg hneg]
  · rename_i hemp
    by_cases hrole : guessRole obj = "user"
    · have hpos1 : guessRole obj = "user" ∧ st.first_user_text = "" := ⟨hrole, h⟩
      have hpos2 : guessRole obj = "user" ∧ ¬(extractTextRecursive obj).isEmpty = true :=
        ⟨hrole, hemp⟩
      rw [if_pos hpos1, if_pos hpos2]
    · have hneg1 : ¬(guessRole obj = "user" ∧ st.first_user_text = "") :=
        fun hc => hrole hc.1
      have hneg2 : ¬(guessRole obj = "user" ∧ ¬(extractTextRecursive obj).isEmpty = true) :=
        fun hc => hrole hc.1
      rw [if_neg hneg1, if_neg hneg2]
      exact h

theorem summarizeDesktopLoop_first_ne (fmt : ℚ → Option String) :
    ∀ (objs : List Json) (st : DeskSumSt), st.first_user_text ≠ "" →
      (summarizeDesktopLoop fmt objs st).first_user_text = st.first_user_text := by
  intro objs
  induction objs with
  | nil => intro st h; rfl
  | cons obj rest ih =>
      intro st h
      simp only [summarizeDesktopLoop]
      have hm := deskMetaUpdate_first fmt obj st
      have ht := deskTextUpdate_first_ne obj (deskMetaUpdate fmt obj st)
        (by rw [hm]; exact h)
      rw [ih _ (by rw [ht, hm]; exact h), ht, hm]

theorem deskFirstUserSpec_cons_skip (obj : Json) (rest : List Json)
    (h : deskRecFirst obj = "") :
    deskFirstUserSpec (obj :: rest) = deskFirstUserSpec rest := by
  simp only [deskFirstUserSpec, List.filterMap_cons]
  rw [if_neg (by simp [h])]

theorem deskFirstUserSpec_cons_hit (obj : Json) (rest : List Json)
    (h : deskRecFirst obj ≠ "") :
    deskFirstUserSpec (obj :: rest) = deskRecFirst obj := by
  simp only [deskFirstUserSpec, List.filterMap_cons]
  rw [if_pos h]
  rfl

theorem summarizeDesktopLoop_first_eq (fmt : ℚ → Option String) :
    ∀ (objs : List Json) (st : DeskSumSt), st.first_user_text = "" →
      (summarizeDesktopLoop fmt objs st).first_user_text = deskFirstUserSpec objs := by
  intro objs
  induction objs with
  | nil => intro st h; exact h
  | cons obj rest ih =>
      intro st h
      simp only [summarizeDesktopLoop]
      have hm := deskMetaUpdate_first fmt obj st
      have ht := deskTextUpdate_first_eq obj (deskMetaUpdate fmt obj st)
        (by rw [hm]; exact h)
      by_cases hcr : deskRecFirst obj = ""
      · rw [ih _ (by rw [ht, hcr]), deskFirstUserSpec_cons_skip obj rest hcr]
      · rw [summarizeDesktopLoop_first_ne fmt rest _ (by rw [ht]; exact hcr), ht,
          deskFirstUserSpec_cons_hit obj rest hcr]

/-- A non-empty reference value survives appending further lines. -/
theorem cliFirstUserSpec_append (parse : String → Option Json)
    (lines extra : List String) (h : cliFirstUserSpec parse lines ≠ "") :
    cliFirstUserSpec parse (lines ++ extra) = cliFirstUserSpec parse lines := by
  simp only [cliFirstUserSpec, List.filterMap_append] at h ⊢
  rcases hA : lines.filterMap _ with _ | ⟨t, ts⟩
  · rw [hA] at h
    simp at h
  · rfl

/-- C9 (amended): on the CLI path, `first_user_text` is exactly the
truncated text of the first record classified role=user with non-empty
harvested text, and once non-empty it is never changed by further lines.
On the desktop path the user rule applies first, but when no
user-classified record supplies text the field falls back to the first
harvested text (or, when no objects were recovered at all, to the first
readable snippet). -/
theorem c9_first_user (meta : ArtifactMeta) (fmt : ℚ → Option String)
    (parse : String → Option Json) (lines extra : List String)
    (d8 d16 : List Nat → String) (raw : List Nat) :
    (summarizeCliSession meta fmt parse lines).first_user_text =
      cliFirstUserSpec parse lines ∧
    (cliFirstUserSpec parse lines ≠ "" →
      (summarizeCliSession meta fmt parse (lines ++ extra)).first_user_text =
        (summarizeCliSession meta fmt parse lines).first_user_text) ∧
    ((summarizeDesktopBlob meta fmt d8 d16 parse raw).first_user_text =
      if (extractJsonObjectsFromBytes d8 d16 parse raw 40).isEmpty then
        pyTrunc ((extractReadableSnippets d8 d16 raw 10).headD "") 180
      else if deskFirstUserSpec (extractJsonObjectsFromBytes d8 d16 parse raw 40) ≠ "" then
        deskFirstUserSpec (extractJsonObjectsFromBytes d8 d16 parse raw 40)
      else
        pyTrunc (((extractJsonObjectsFromBytes d8 d16 parse raw 40).filterMap
          deskTextOf).headD "") 180) := by
  have hcli : ∀ ls, (summarizeCliSession meta fmt parse ls).first_user_text =
      cliFirstUserSpec parse ls := by
    intro ls
    show (summarizeCliLoop fmt parse ls ⟨"", "", "", "", []⟩).first_user_text = _
    exact summarizeCliLoop_first_eq fmt parse ls _ rfl
  refine ⟨hcli lines, ?_, ?_⟩
  · intro h
    rw [hcli (lines ++ extra), hcli lines]
    exact cliFirstUserSpec_append parse lines extra h
  · cases hobjs : (extractJsonObjectsFromBytes d8 d16 parse raw 40).isEmpty with
    | true =>
      rw [if_pos rfl]
      simp only [summarizeDesktopBlob, hobjs, Bool.not_true, Bool.false_eq_true, if_false]
      rcases hsn : extractReadableSnippets d8 d16 raw 10 with _ | ⟨s, ss⟩
      · decide
      · simp
    | false =>
      rw [if_neg Bool.false_ne_true]
      simp only [summarizeDesktopBlob, hobjs, Bool.not_false, if_true]
      have hfirst := summarizeDesktopLoop_first_eq fmt
        (extractJsonObjectsFromBytes d8 d16 parse raw 40) ⟨"", "", []⟩ rfl
      have htexts : (summarizeDesktopLoop fmt
          (extractJsonObjectsFromBytes d8 d16 parse raw 40) ⟨"", "", []⟩).texts =
          (extractJsonObjectsFromBytes d8 d16 parse raw 40).filterMap deskTextOf := by
        rw [summarizeDesktopLoop_texts_eq]
        rfl
      rw [hfirst, htexts]
      by_cases hspec : deskFirstUserSpec (extractJsonObjectsFromBytes d8 d16 parse raw 40) = ""
      · have hneg2 : ¬(deskFirstUserSpec (extractJsonObjectsFromBytes d8 d16 parse raw 40) ≠ "") :=
          fun hc => hc hspec
        rw [if_neg hneg2]
        rcases hfm : List.filterMap deskTextOf (extractJsonObjectsFromBytes d8 d16 parse raw 40)
          with _ | ⟨t, ts⟩
        · have hneg1 : ¬(deskFirstUserSpec (extractJsonObjectsFromBytes d8 d16 parse raw 40) = "" ∧
              (!(List.isEmpty ([] : List String))) = true) := fun hc => by
            exact absurd hc.2 (by decide)
          rw [if_neg hneg1, hspec]
          decide
        · have hpos1 : deskFirstUserSpec (extractJsonObjectsFromBytes d8 d16 parse raw 40) = "" ∧
              (!(List.isEmpty (t :: ts))) = true := ⟨hspec, rfl⟩
          rw [if_pos hpos1]
      · have hpos2 : deskFirstUserSpec (extractJsonObjectsFromBytes d8 d16 parse raw 40) ≠ "" :=
          hspec
        rw [if_pos hpos2]
        have hneg1 : ¬(deskFirstUserSpec (extractJsonObjectsFromBytes d8 d16 parse raw 40) = "" ∧
            (!(List.filterMap deskTextOf
              (extractJsonObjectsFromBytes d8 d16 parse raw 40)).isEmpty) = true) :=
          fun hc => hspec hc.1
        rw [if_neg hneg1]

/-- Witness for `c9_first_user` at a one-line user artifact. -/
theorem c9_first_user_witness :
    (summarizeCliSession metaC9 fmtNone parseU ([lineU] ++ [])).first_user_text =
      (summarizeCliSession metaC9 fmtNone parseU [lineU]).first_user_text :=
  (c9_first_user metaC9 fmtNone parseU [lineU] [] d8C9 decodeEmpty [0]).2.1 (by decide)

/-- C9 counterexample: a desktop artifact whose only recovered record
classifies as assistant still gets a non-empty `first_user_text` — the
desktop path fills it from the first harvested text even when no record
classifies as user, so the field is not set only from user records. -/
theorem c9_counterexample :
    (summarizeDesktopBlob metaC9 fmtNone d8C9 decodeEmpty parseC9 [0]).first_user_text =
      "hello from the assistant side" ∧
    guessRole objC9A = "assistant" := by
  constructor
  · decide
  · decide

/-- Taking no characters leaves the scan state unchanged, so the stop
condition at index zero is the head test of `scanFrom`. -/
theorem stopCond_zero (st : ScanSt) (c : Char) (rest : List Char) :
    stopCond st (c :: rest) 0 ↔
      (st.inStr = false ∧ c = '\x7d' ∧ st.depth - 1 = 0) := Iff.rfl

/-- The stop condition one step later is the stop condition of the stepped
state over the tail. -/
theorem stopCond_succ (st : ScanSt) (c : Char) (rest : List Char) (m : Nat) :
    stopCond st (c :: rest) (m + 1) ↔ stopCond (scanStep st c) rest m := Iff.rfl

/-- The inner scan from position `j` returns `some k` exactly when `k` is
the first index at which the stop condition holds. -/
theorem scanFrom_iff (cs : List Char) : ∀ (j : Nat) (st : ScanSt) (k : Nat),
    scanFrom cs j st = some k ↔
      ∃ m, m < cs.length ∧ k = j + m ∧ stopCond st cs m ∧
        ∀ m', m' < m → ¬stopCond st cs m' := by
  induction cs with
  | nil =>
    intro j st k
    constructor
    · intro h
      exact absurd h (by simp [scanFrom])
    · rintro ⟨m, hm, _⟩
      exact absurd hm (Nat.not_lt_zero m)
  | cons c rest ih =>
    intro j st k
    have hdef : scanFrom (c :: rest) j st =
        if st.inStr = false ∧ c = '\x7d' ∧ st.depth - 1 = 0 then some j
        else scanFrom rest (j + 1) (scanStep st c) := rfl
    by_cases hP : st.inStr = false ∧ c = '\x7d' ∧ st.depth - 1 = 0
    · rw [hdef, if_pos hP]
      constructor
      · intro h
        injection h with hk
        subst hk
        refine ⟨0, Nat.succ_pos rest.length, rfl, (stopCond_zero st c rest).mpr hP, ?_⟩
        intro m' hm'
        exact absurd hm' (Nat.not_lt_zero m')
      · rintro ⟨m, hm, hk, hstop, hmin⟩
        rcases m with _ | m
        · have hkj : k = j := by omega
          rw [hkj]
        · exact absurd ((stopCond_zero st c rest).mpr hP) (hmin 0 (Nat.succ_pos m))
    · rw [hdef, if_neg hP, ih (j + 1) (scanStep st c) k]
      constructor
      · rintro ⟨m, hm, hk, hstop, hmin⟩
        refine ⟨m + 1, ?_, by omega, (stopCond_succ st c rest m).mpr hstop, ?_⟩
        · simp only [List.length_cons]
          omega
        · intro m' hm'
          rcases m' with _ | m'
          · intro hs
            exact hP ((stopCond_zero st c rest).mp hs)
          · intro hs
            exact hmin m' (by omega) ((stopCond_succ st c rest m').mp hs)
      · rintro ⟨m, hm, hk, hstop, hmin⟩
        rcases m with _ | m
        · exact absurd ((stopCond_zero st c rest).mp hstop) hP
        · simp only [List.length_cons] at hm
          refine ⟨m, by omega, by omega, (stopCond_succ st c rest m).mp hstop, ?_⟩
          intro m' hm' hs
          exact hmin (m' + 1) (by omega) ((stopCond_succ st c rest m').mpr hs)

/-- C3: characters inside a quoted string literal never change the
nesting depth (stepping any string-interior state leaves `depth` fixed);
the inner scan of the candidate recoverer returns index `k` exactly when
`k` is the first position at which, outside any string, a closing brace
returns the genuine depth to zero; and a record whose string value
contains an opening brace is recovered with its exact boundaries. -/
theorem c3_scanner :
    (∀ (st : ScanSt) (c : Char), st.inStr = true → (scanStep st c).depth = st.depth) ∧
    (∀ (cs : List Char) (j : Nat) (st : ScanSt) (k : Nat),
      scanFrom cs j st = some k ↔
        ∃ m, m < cs.length ∧ k = j + m ∧ stopCond st cs m ∧
          ∀ m', m' < m → ¬stopCond st cs m') ∧
    extractJsonCandidatesBalanced exText 200 = [exText] := by
  refine ⟨?_, scanFrom_iff, by decide⟩
  intro st c h
  unfold scanStep
  rw [if_pos h]
  by_cases he : st.esc = true
  · rw [if_pos he]
  · rw [if_neg he]
    by_cases hb : c = '\\'
    · rw [if_pos hb]
    · rw [if_neg hb]
      by_cases hq : c = '"'
      · rw [if_pos hq]
      · rw [if_neg hq]

/-- Witness for `c3_scanner`: stepping a string-interior state over an
opening brace leaves the depth unchanged. -/
theorem c3_scanner_witness : (scanStep ⟨5, true, false⟩ '\x7b').depth = 5 :=
  c3_scanner.1 ⟨5, true, false⟩ '\x7b' rfl

end ClaudeViewer
